import Mathlib

/-!
# Verification model of `tools/ingest.py`

A shallow embedding of the ingest pipeline of this repository
(`tools/ingest.py`): Python strings are modelled as `List Char`, the
filesystem as a list of repo-relative paths, the interactive prompts as
lists of pre-supplied input lines, and the external OCR binary as an
oracle.  Fallible Python code (uncaught exceptions) is modelled with
`Except`.  Each definition is translated from the corresponding Python
function and keeps its name.
-/

set_option maxRecDepth 20000

/-- Characters of a string literal; Python `str` values are `List Char`. -/
def sToL (s : String) : List Char := s.data

/-- The whitespace characters stripped by Python `str.strip` (the ones
relevant to this program: space, newline, tab, carriage return). -/
def wsChar (c : Char) : Bool := c = ' ' || c = '\n' || c = '\t' || c = '\r'

/-- Python `str.lstrip()`. -/
def pyLstrip (l : List Char) : List Char := l.dropWhile wsChar

/-- Python `str.rstrip()`. -/
def pyRstrip (l : List Char) : List Char := (l.reverse.dropWhile wsChar).reverse

/-- Python `str.strip()`. -/
def pyStrip (l : List Char) : List Char := pyLstrip (pyRstrip l)

/-- `startsWith p s` is true when `p` is a prefix of `s` (Python
`s.startswith(p)`), the primitive of the substring search below. -/
def startsWith : List Char → List Char → Bool
  | [], _ => true
  | _ :: _, [] => false
  | a :: as, b :: bs => a = b && startsWith as bs

/-- There is an occurrence of `sep` in `s` beginning at index `i`. -/
def occursAt (sep s : List Char) (i : Nat) : Bool := startsWith sep (s.drop i)

/-- Index of the first occurrence of `sep` in `s` (Python `s.find(sep)`,
`none` for -1). -/
def findOcc (sep : List Char) : List Char → Option Nat
  | [] => if startsWith sep [] then some 0 else none
  | c :: t => if startsWith sep (c :: t) then some 0 else (findOcc sep t).map (· + 1)

/-- Python `sep in s` (substring containment). -/
def containsSub (sep s : List Char) : Bool := (findOcc sep s).isSome

/-- Fuelled splitter implementing Python `s.split(sep)` for nonempty
`sep`: cut at every occurrence of `sep`. -/
def pySplitF (sep : List Char) : Nat → List Char → List (List Char)
  | 0, s => [s]
  | fuel + 1, s =>
    match findOcc sep s with
    | none => [s]
    | some i => s.take i :: pySplitF sep fuel (s.drop (i + sep.length))

/-- Python `s.split(sep)` (for the nonempty separators this program uses;
`s.length` occurrences is an upper bound, so the fuel suffices). -/
def pySplit (sep s : List Char) : List (List Char) := pySplitF sep s.length s

/-- Python `"\n".join(lines)`. -/
def joinNL : List (List Char) → List Char
  | [] => []
  | [l] => l
  | l :: l' :: ls => l ++ '\n' :: joinNL (l' :: ls)

/-- Lexicographic comparison of strings by code point, Python `s <= t`. -/
def lexLe : List Char → List Char → Bool
  | [], _ => true
  | _ :: _, [] => false
  | a :: as, b :: bs => if a.toNat = b.toNat then lexLe as bs else decide (a.toNat < b.toNat)

/-- Python `str.lower()` restricted to the characters this pipeline can
meet in slugs and titles: ASCII letters and the German capitals the
`slugify` transliteration table knows about.  (Other code points are left
unchanged; for `slugify` they are squashed to `-` either way.) -/
def pyLowerChar (c : Char) : Char :=
  if 65 ≤ c.toNat && c.toNat ≤ 90 then Char.ofNat (c.toNat + 32)
  else if c = 'Ä' then 'ä'
  else if c = 'Ö' then 'ö'
  else if c = 'Ü' then 'ü'
  else c

/-- Python `str.lower()` on a whole string. -/
def pyLower (l : List Char) : List Char := l.map pyLowerChar

/-- Models Python `int(s)`: optional surrounding whitespace, an optional
sign, then one or more ASCII decimal digits.  (CPython additionally
accepts underscore digit grouping and non-ASCII digits; those are outside
this model.)  `none` models the `ValueError`. -/
def pyInt (l : List Char) : Option Int :=
  let digit : Char → Bool := fun c => 48 ≤ c.toNat && c.toNat ≤ 57
  let val : List Char → Nat := fun ds => ds.foldl (fun a c => a * 10 + (c.toNat - 48)) 0
  let s := pyStrip l
  match s with
  | '+' :: ds => if ds ≠ [] ∧ ds.all digit then some (val ds) else none
  | '-' :: ds => if ds ≠ [] ∧ ds.all digit then some (-(val ds : Int)) else none
  | ds => if ds ≠ [] ∧ ds.all digit then some (val ds) else none

/-- Python `str(n)` for integers. -/
def intStr (i : Int) : List Char := (toString i).data

/-! ## `slugify` (ingest.py lines 40-45) -/

/-- `[a-z0-9]`, the character class kept by `slugify`'s regex. -/
def isAlnumLower (c : Char) : Bool :=
  (97 ≤ c.toNat && c.toNat ≤ 122) || (48 ≤ c.toNat && c.toNat ≤ 57)

/-- The chained `str.replace` transliterations of `slugify`:
`ä→ae`, `ö→oe`, `ü→ue`, `ß→ss`. -/
def translitChar (c : Char) : List Char :=
  if c = 'ä' then sToL "ae"
  else if c = 'ö' then sToL "oe"
  else if c = 'ü' then sToL "ue"
  else if c = 'ß' then sToL "ss"
  else [c]

/-- `re.sub(r"[^a-z0-9]+", "-", s)`: every maximal run of characters
outside `[a-z0-9]` becomes a single `-`.  The boolean records whether we
are inside such a run (its `-` already emitted). -/
def subRunsGo : Bool → List Char → List Char
  | _, [] => []
  | inRun, c :: cs =>
    if isAlnumLower c then c :: subRunsGo false cs
    else if inRun then subRunsGo true cs
    else '-' :: subRunsGo true cs

/-- `re.sub(r"[^a-z0-9]+", "-", s)`. -/
def subRuns (l : List Char) : List Char := subRunsGo false l

/-- `re.sub(r"-{2,}", "-", s)`: collapse runs of `-` to a single `-`.
The boolean records whether the previous emitted character was `-`. -/
def collapseGo : Bool → List Char → List Char
  | _, [] => []
  | prevDash, c :: cs =>
    if c = '-' then
      if prevDash then collapseGo true cs else '-' :: collapseGo true cs
    else c :: collapseGo false cs

/-- `re.sub(r"-{2,}", "-", s)`. -/
def collapseDashes (l : List Char) : List Char := collapseGo false l

/-- Python `s.strip("-")`. -/
def stripDashes (l : List Char) : List Char :=
  ((l.reverse.dropWhile (· = '-')).reverse).dropWhile (· = '-')

/-- `slugify` (ingest.py lines 40-45): strip and lowercase, transliterate
the fixed table, squash non-alphanumeric runs to `-`, collapse repeated
`-`, strip boundary `-`, and fall back to `"untitled"`. -/
def slugify (s : List Char) : List Char :=
  let s1 := pyLower (pyStrip s)
  let s2 := s1.flatMap translitChar
  let s3 := subRuns s2
  let s4 := collapseDashes s3
  let s5 := stripDashes s4
  if s5 = [] then sToL "untitled" else s5

/-- `true` when the string contains two adjacent dashes. -/
def hasDD : List Char → Bool
  | [] => false
  | [_] => false
  | a :: b :: t => (a = '-' && b = '-') || hasDD (b :: t)

/-! ## Interactive prompts (ingest.py lines 167-230)

The operator's terminal input is modelled by pre-supplied strings: one raw
line per single-line prompt, and for each multi-line prompt the list of
lines typed.  `prompt_multiline` consumes lines up to (excluding) the
first sentinel line (a line whose `strip()` is `"."`); lines from the
sentinel on are not part of the captured text. -/

/-- The line terminating a multi-line prompt: `line.strip() == "."`. -/
def sentinelLine (l : List Char) : Bool := pyStrip l = ['.']

/-- `prompt_multiline` (lines 174-183): collect `line.rstrip()` for each
line before the sentinel, join with newlines, `strip()` the result. -/
def prompt_multiline (ls : List (List Char)) : List Char :=
  pyStrip (joinNL ((ls.takeWhile (fun l => !sentinelLine l)).map pyRstrip))

/-- `prompt_list` (lines 167-171): comma-separated keywords; each item
stripped, empty items dropped. -/
def prompt_list (raw : List Char) : List (List Char) :=
  let r := pyStrip raw
  if r = [] then []
  else ((pySplit [','] r).map pyStrip).filter (fun x => x ≠ [])

/-- The raw input the operator supplies to `prompt_meta` for one item. -/
structure PromptInput where
  title_raw : List Char
  year_raw : List Char
  lic_raw : List Char
  kw_raw : List Char
  trans_lines : List (List Char)
  desc_lines : List (List Char)
deriving DecidableEq

/-- The `WorkMeta` dataclass (lines 77-89). -/
structure WorkMeta where
  title : List Char
  year : Int
  creator : List Char
  license : List Char
  language : List Char
  keywords : List (List Char)
  description : List Char
  transcription : List Char
  source_filename : List Char
  image_path : List Char
  work_md_path : List Char
deriving DecidableEq

/-- `prompt_meta` (lines 186-230).  `int(year_raw)` on a non-empty,
non-integer answer raises `ValueError`, modelled by `Except.error`
carrying the offending (stripped) string. -/
def prompt_meta (default_title : List Char) (default_year : Int)
    (creator default_license language ocr_text source_filename : List Char)
    (inp : PromptInput) : Except (List Char) WorkMeta :=
  let title := if pyStrip inp.title_raw = [] then default_title else pyStrip inp.title_raw
  let year_raw := pyStrip inp.year_raw
  match (if year_raw = [] then some default_year else pyInt year_raw) with
  | none => .error year_raw
  | some year =>
    let lic := if pyStrip inp.lic_raw = [] then default_license else pyStrip inp.lic_raw
    let kws := prompt_list inp.kw_raw
    let t0 := prompt_multiline inp.trans_lines
    let transcription := if t0 = [] then ocr_text else t0
    let description := prompt_multiline inp.desc_lines
    .ok ⟨title, year, creator, lic, language, kws, description, transcription,
         source_filename, [], []⟩

/-! ## OCR adapter (ingest.py lines 36-37, 142-164)

`sh` is `subprocess.run`; its observable behaviour (per argv) is an
oracle: either an exception, or an exit code with captured stdout.  The
first `tesseract` invocation is wrapped in `except FileNotFoundError`
only; the temp-file fallback is wrapped in `except Exception`.  The
`finally` clause only deletes temp files and swallows its own errors, so
it has no observable effect here. -/

/-- The exception classes `run_tesseract_ocr` can meet from `sh` and
`Path.read_text`. -/
inductive PyExn where
  | fileNotFound
  | permissionErr
  | otherExn
deriving DecidableEq

/-- Oracle for the external world seen by `run_tesseract_ocr`. -/
structure OcrEnv where
  shRun : List (List Char) → Except PyExn (Int × List Char)
  readTmpTxt : Except PyExn (List Char)

/-- `image_path.parent / (image_path.stem + "_ocr_tmp")` for the simple
(directory-free) paths the pipeline passes in. -/
def ocrTmpBase (p : List Char) : List Char :=
  (if p.contains '.' then ((p.reverse.dropWhile (· ≠ '.')).drop 1).reverse else p)
    ++ sToL "_ocr_tmp"

/-- Argv of the first `tesseract` invocation (stdout target). -/
def tessCmdStdout (p lang : List Char) : List (List Char) :=
  [sToL "tesseract", p, sToL "stdout", sToL "-l", lang]

/-- Argv of the fallback `tesseract` invocation (temp-file target). -/
def tessCmdFile (p lang : List Char) : List (List Char) :=
  [sToL "tesseract", p, ocrTmpBase p, sToL "-l", lang]

/-- `run_tesseract_ocr` (lines 142-164). -/
def run_tesseract_ocr (env : OcrEnv) (image_path lang : List Char) :
    Except PyExn (List Char) :=
  match env.shRun (tessCmdStdout image_path lang) with
  | .error e => if e = .fileNotFound then .ok [] else .error e
  | .ok (code, out) =>
    if code = 0 then .ok (pyStrip out)
    else
      match env.shRun (tessCmdFile image_path lang) with
      | .error _ => .ok []
      | .ok _ =>
        match env.readTmpTxt with
        | .error _ => .ok []
        | .ok txt => .ok (pyStrip txt)

/-! ## README index (ingest.py lines 265-291) -/

/-- `marker_a`. -/
def markerA : List Char := sToL "<!-- INDEX:BEGIN -->"

/-- `marker_b`. -/
def markerB : List Char := sToL "<!-- INDEX:END -->"

/-- The `header` string of `update_readme`. -/
def headerText : List Char :=
  sToL "# Infologische Bildtafeln\n\nOffenes Roharchiv (Bild + Transkription + Kontext) für maschinenlesbare Auffindbarkeit.\n\n"

/-- One index entry `- [title](md)`. -/
def entryLine (p : List Char × List Char) : List Char :=
  sToL "- [" ++ p.1 ++ sToL "](" ++ p.2 ++ sToL ")"

/-- Ordered insertion under a boolean comparison; together with `sortBy`
this is a stable sort, extensionally equal to Python's stable
`sorted(..., key=...)` over the same non-strict comparison. -/
def insertBy (le : α → α → Bool) (a : α) : List α → List α
  | [] => [a]
  | b :: l => if le a b then a :: b :: l else b :: insertBy le a l

/-- Stable insertion sort, modelling Python `sorted`. -/
def sortBy (le : α → α → Bool) : List α → List α
  | [] => []
  | a :: l => insertBy le a (sortBy le l)

/-- The comparison `key=lambda x: x[0].lower()` of `update_readme`. -/
def titleLe (a b : List Char × List Char) : Bool := lexLe (pyLower a.1) (pyLower b.1)

/-- `sorted(works, key=lambda x: x[0].lower())`. -/
def sortWorks (ws : List (List Char × List Char)) : List (List Char × List Char) :=
  sortBy titleLe ws

/-- The lines of the regenerated section strictly inside the markers. -/
def innerLines (ws : List (List Char × List Char)) : List (List Char) :=
  [[], sToL "## Werke", []] ++ (sortWorks ws).map entryLine ++ [[]]

/-- `index_lines` (lines 274-277). -/
def indexLines (ws : List (List Char × List Char)) : List (List Char) :=
  markerA :: innerLines ws ++ [markerB, []]

/-- `"\n".join(index_lines)`, the full regenerated index section. -/
def renderIndex (ws : List (List Char × List Char)) : List Char :=
  joinNL (indexLines ws)

/-- `update_readme` (lines 265-291).  `old` is the current README content
(`none` when the file does not exist); the result is the content written
back.  `txt.split(m)[0]` / `txt.split(m)[1]` are the first two fields of
the Python split. -/
def update_readme (old : Option (List Char)) (ws : List (List Char × List Char)) :
    List Char :=
  let idx := renderIndex ws
  let txt := match old with
    | some t => t
    | none => headerText ++ idx
  if containsSub markerA txt && containsSub markerB txt then
    (pyRstrip ((pySplit markerA txt).getD 0 []) ++ ['\n'])
      ++ idx ++ pyLstrip ((pySplit markerB txt).getD 1 [])
  else headerText ++ idx

/-! ## Slug collision resolution (ingest.py lines 390-406) -/

/-- The candidate image path `images/<slug>.<ext>`. -/
def imgPath (slug ext : List Char) : List Char :=
  sToL "images/" ++ slug ++ '.' :: ext

/-- The candidate document path `works/<slug>.md`. -/
def mdPath (slug : List Char) : List Char := sToL "works/" ++ slug ++ sToL ".md"

/-- `not (img_dst.exists() or md_dst.exists())`: both target paths free. -/
def bothFree (fs : List (List Char)) (slug ext : List Char) : Bool :=
  !(fs.contains (imgPath slug ext)) && !(fs.contains (mdPath slug))

/-- The suffixed candidate `f"{slug}-{n}"`. -/
def candSlug (slug : List Char) (n : Nat) : List Char := slug ++ '-' :: (toString n).data

/-- The body of the collision `while` loop: try `slug-n`, `slug-(n+1)`, …
The fuel bounds the number of iterations; any fuel at least the number of
occupied candidates is enough (the orchestrator passes `fs.length + 2`). -/
def resolveGo (fs : List (List Char)) (slug ext : List Char) : Nat → Nat → List Char
  | 0, n => candSlug slug n
  | fuel + 1, n =>
    if bothFree fs (candSlug slug n) ext then candSlug slug n
    else resolveGo fs slug ext fuel (n + 1)

/-- Slug collision resolution (lines 398-406): keep the bare slug if both
its target paths are free, otherwise append `-2`, `-3`, … until both are
free. -/
def resolveSlug (fs : List (List Char)) (slug ext : List Char) (fuel : Nat) : List Char :=
  if bothFree fs slug ext then slug else resolveGo fs slug ext fuel 2

/-! ## Pipeline orchestrator (ingest.py lines 56-74, 92-139, 294-489)

The repository working tree is modelled as the list of repo-relative
paths of the files present (`fs`).  `ensure_dirs` only creates
directories, which the path list does not record.  The image encoding
itself (PIL) is an external adapter per the spec; `web_convert` is
modelled as its control flow: validate the target format, then produce
the destination file.  `git`, the sitemap pings and `curl` are external
side effects recorded as flags. -/

/-- `SUPPORTED_EXTS` (line 33). -/
def SUPPORTED_EXTS : List (List Char) :=
  [sToL ".png", sToL ".jpg", sToL ".jpeg", sToL ".webp", sToL ".tif", sToL ".tiff", sToL ".bmp"]

/-- A directory entry of `source_dir`: its filename, `Path.stem`,
`Path.suffix`, whether it is a regular file, and an abstract `sha256`
digest of its byte content (equal bytes, equal digest). -/
structure SrcItem where
  name : List Char
  stem : List Char
  suffix : List Char
  isFile : Bool
  hash : Nat
deriving DecidableEq

/-- `find_new_images` (lines 92-102): iterate the directory sorted by
name, keep regular files with a supported extension whose content hash is
not in the seen set. -/
def find_new_images (src : List SrcItem) (seen : List Nat) : List SrcItem :=
  (sortBy (fun a b => lexLe a.name b.name) src).filter
    (fun p => p.isFile && SUPPORTED_EXTS.contains (pyLower p.suffix)
      && !(seen.contains p.hash))

/-- The uncaught exceptions that can abort a run of `main`. -/
inductive RunErr where
  | unsupportedFormat (fmt : List Char)
  | yearValueError (raw : List Char)
deriving DecidableEq

/-- Add a path to the working tree (sets are lists without duplicates). -/
def insertPath (p : List Char) (fs : List (List Char)) : List (List Char) :=
  if fs.contains p then fs else fs ++ [p]

/-- `web_convert` (lines 105-139), reduced to its fallible control flow:
an unsupported target format raises `ValueError`; otherwise the encoded
asset appears at `dst`.  (Resizing/encoding is the external converter
adapter.) -/
def web_convert (fs : List (List Char)) (dst fmtRaw : List Char) :
    Except RunErr (List (List Char)) :=
  let fmt := pyLower fmtRaw
  if fmt = sToL "webp" ∨ fmt = sToL "jpg" ∨ fmt = sToL "jpeg" ∨ fmt = sToL "png" then
    .ok (insertPath dst fs)
  else .error (.unsupportedFormat fmt)

/-- The configuration values `main` reads (lines 337-350), plus
`date.today().year`. -/
structure Config where
  output_format : List Char
  run_ocr : Bool
  dry_run : Bool
  auto_commit : Bool
  auto_push : Bool
  creator : List Char
  language : List Char
  default_license : List Char
  todayYear : Int

/-- The operator input and OCR oracle result for one item of the batch.
(`ocrOut` is the value `run_tesseract_ocr` returns for this item's temp
asset; the adapter itself is modelled separately.) -/
structure ItemInput where
  prompt : PromptInput
  ocrOut : List Char

/-- One entry of the persisted `works` list (lines 419-428). -/
structure WorkRec where
  title : List Char
  year : Int
  slug : List Char
  md : List Char
  image : List Char
  sha256 : Nat
deriving DecidableEq

/-- The in-memory batch state threaded through the per-item loop. -/
structure LoopSt where
  works : List WorkRec
  seen : List Nat
  fs : List (List Char)
  archived : List (List Char)
  filesWritten : List (List Char)
deriving DecidableEq

/-- The body of the `for src in new_imgs` loop (lines 354-442) for one
item. -/
def processItem (cfg : Config) (st : LoopSt) (it : SrcItem) (inp : ItemInput) :
    Except RunErr LoopSt :=
  let h := it.hash
  let base := pyStrip (it.stem.map (fun c => if c = '_' || c = '-' then ' ' else c))
  let default_title := if base = [] then sToL "Untitled" else base.take 60
  let fmt := pyLower cfg.output_format
  let tmp := sToL ".ingest/_tmp_" ++ it.stem ++ '.' :: fmt
  let fs1 := st.fs.erase tmp
  match (if cfg.dry_run then Except.ok fs1 else web_convert fs1 tmp fmt) with
  | .error e => .error e
  | .ok fs2 =>
    let ocr_text := if cfg.run_ocr && !cfg.dry_run then inp.ocrOut else []
    match prompt_meta default_title cfg.todayYear cfg.creator cfg.default_license
        cfg.language ocr_text it.name inp.prompt with
    | .error raw => .error (.yearValueError raw)
    | .ok meta =>
      let slug0 := slugify (meta.title ++ '-' :: intStr meta.year)
      let slug := resolveSlug fs2 slug0 fmt (fs2.length + 2)
      let img_rel := imgPath slug fmt
      let md_rel := mdPath slug
      let fs3 := if cfg.dry_run then fs2
        else insertPath md_rel (insertPath img_rel (fs2.erase tmp))
      let written := if cfg.dry_run then st.filesWritten
        else st.filesWritten ++ [img_rel, md_rel]
      let works := st.works ++ [⟨meta.title, meta.year, slug, md_rel, img_rel, h⟩]
      let seen := if st.seen.contains h then st.seen else st.seen ++ [h]
      let archived := if cfg.dry_run then st.archived else st.archived ++ [it.name]
      .ok ⟨works, seen, fs3.erase tmp, archived, written⟩

/-- The per-item loop: process items until done or until an uncaught
exception stops the run, returning the state reached. -/
def processItems (cfg : Config) : LoopSt → List (SrcItem × ItemInput) →
    LoopSt × Option RunErr
  | st, [] => (st, none)
  | st, (it, inp) :: rest =>
    match processItem cfg st it inp with
    | .error e => (st, some e)
    | .ok st' => processItems cfg st' rest

/-- Observable outcome of one run of `main` (lines 306-489): the exit
(`Except.error` models an uncaught exception, which makes the process
exit non-zero), the final in-memory state, the working tree, and which
end-of-run side effects ran. -/
structure RunOut where
  exit : Except RunErr Nat
  works_state : List WorkRec
  seen : List Nat
  fs : List (List Char)
  archived : List (List Char)
  filesWritten : List (List Char)
  readmeWritten : Bool
  statePersisted : Bool
  manifestPersisted : Bool
  sitemapWritten : Bool
  gitInvoked : Bool

/-- `main` (lines 306-489) after configuration loading: discovery, the
per-item loop, then index regeneration, state/manifest persistence
(both skipped in dry-run), the unconditional sitemap write (lines
457-473, not guarded by `dry_run`), and commit/push.  `inputs` supplies
the operator's answers per discovered item. -/
def mainModel (cfg : Config) (fs0 : List (List Char)) (seen0 : List Nat)
    (works0 : List WorkRec) (src : List SrcItem) (inputs : List ItemInput) : RunOut :=
  let new_imgs := find_new_images src seen0
  if new_imgs = [] then
    { exit := .ok 0, works_state := works0, seen := seen0, fs := fs0, archived := [],
      filesWritten := [], readmeWritten := false, statePersisted := false,
      manifestPersisted := false, sitemapWritten := false, gitInvoked := false }
  else
    match processItems cfg ⟨works0, seen0, fs0, [], []⟩ (new_imgs.zip inputs) with
    | (st, some e) =>
      { exit := .error e, works_state := st.works, seen := st.seen, fs := st.fs,
        archived := st.archived, filesWritten := st.filesWritten,
        readmeWritten := false, statePersisted := false, manifestPersisted := false,
        sitemapWritten := false, gitInvoked := false }
    | (st, none) =>
      let fsR := if cfg.dry_run then st.fs else insertPath (sToL "README.md") st.fs
      { exit := .ok 0, works_state := st.works, seen := st.seen,
        fs := insertPath (sToL "sitemap.xml") fsR, archived := st.archived,
        filesWritten := st.filesWritten
          ++ (if cfg.dry_run then [] else [sToL "README.md"]) ++ [sToL "sitemap.xml"],
        readmeWritten := !cfg.dry_run, statePersisted := !cfg.dry_run,
        manifestPersisted := !cfg.dry_run, sitemapWritten := true,
        gitInvoked := cfg.auto_commit && !cfg.dry_run }

/-! ## Well-formedness of slugs (claim C8) -/

/-- The character set a finished slug may use: `[a-z0-9-]`. -/
def slugChar (c : Char) : Bool := isAlnumLower c || c = '-'

lemma all_dropWhile_of_all {p q : Char → Bool} {l : List Char} (h : l.all p = true) :
    (l.dropWhile q).all p = true := by
  induction l with
  | nil => simp
  | cons a t ih =>
    simp only [List.all_cons, Bool.and_eq_true] at h
    by_cases hq : q a
    · rw [List.dropWhile_cons, if_pos hq]
      exact ih h.2
    · rw [List.dropWhile_cons, if_neg hq, List.all_cons, h.1, h.2]
      rfl

lemma subRunsGo_all (b : Bool) (l : List Char) : (subRunsGo b l).all slugChar = true := by
  induction l generalizing b with
  | nil => rfl
  | cons c cs ih =>
    by_cases hc : isAlnumLower c
    · simpa [subRunsGo, hc, slugChar] using ih false
    · by_cases hb : b
      · simpa [subRunsGo, hc, hb] using ih true
      · simpa [subRunsGo, hc, hb, slugChar] using ih true

lemma collapseGo_all {l : List Char} (h : l.all slugChar = true) (b : Bool) :
    (collapseGo b l).all slugChar = true := by
  induction l generalizing b with
  | nil => rfl
  | cons c cs ih =>
    simp only [List.all_cons, Bool.and_eq_true] at h
    by_cases hc : c = '-'
    · by_cases hb : b
      · rw [show collapseGo b (c :: cs) = collapseGo true cs by simp [collapseGo, hc, hb]]
        exact ih h.2 true
      · rw [show collapseGo b (c :: cs) = '-' :: collapseGo true cs by
            simp [collapseGo, hc, hb]]
        rw [List.all_cons, ih h.2 true]
        simp [slugChar]
    · rw [show collapseGo b (c :: cs) = c :: collapseGo false cs by simp [collapseGo, hc]]
      rw [List.all_cons, ih h.2 false, h.1]
      rfl

lemma collapseGo_true_head {l : List Char} {c : Char} {t : List Char}
    (h : collapseGo true l = c :: t) : c ≠ '-' := by
  induction l generalizing c t with
  | nil => simp [collapseGo] at h
  | cons d cs ih =>
    by_cases hd : d = '-'
    · exact ih (by simpa [collapseGo, hd] using h)
    · simp only [collapseGo, if_neg hd, List.cons.injEq] at h
      exact h.1 ▸ hd

lemma hasDD_collapseGo (b : Bool) (l : List Char) : hasDD (collapseGo b l) = false := by
  induction l generalizing b with
  | nil => rfl
  | cons c cs ih =>
    by_cases hc : c = '-'
    · by_cases hb : b
      · simpa [collapseGo, hc, hb] using ih true
      · have h2 := ih true
        cases hX : collapseGo true cs with
        | nil => simp [collapseGo, hc, hb, hX, hasDD]
        | cons d t =>
          have hd : d ≠ '-' := collapseGo_true_head hX
          rw [hX] at h2
          simp [collapseGo, hc, hb, hX, hasDD, hd, h2]
    · have h2 := ih false
      cases hX : collapseGo false cs with
      | nil => simp [collapseGo, hc, hX, hasDD]
      | cons d t =>
        rw [hX] at h2
        simp [collapseGo, hc, hX, hasDD, h2]

lemma hasDD_append_single (x : List Char) (a : Char) :
    hasDD (x ++ [a]) =
      (hasDD x || (match x.getLast? with
        | some b => b = '-' && a = '-'
        | none => false)) := by
  induction x with
  | nil => simp [hasDD]
  | cons b t ih =>
    cases t with
    | nil => simp [hasDD, List.getLast?]
    | cons c t' =>
      have e1 : hasDD ((b :: c :: t') ++ [a])
          = ((b = '-' && c = '-') || hasDD ((c :: t') ++ [a])) := rfl
      have e2 : hasDD (b :: c :: t') = ((b = '-' && c = '-') || hasDD (c :: t')) := rfl
      rw [e1, ih, e2, List.getLast?_cons_cons, Bool.or_assoc]

lemma hasDD_reverse (l : List Char) : hasDD l.reverse = hasDD l := by
  induction l with
  | nil => rfl
  | cons a t ih =>
    rw [List.reverse_cons, hasDD_append_single, ih, List.getLast?_reverse]
    cases t with
    | nil => rfl
    | cons b t' =>
      show (hasDD (b :: t') || (b = '-' && a = '-')) = ((a = '-' && b = '-') || hasDD (b :: t'))
      rw [Bool.or_comm, Bool.and_comm]

lemma hasDD_tail {a : Char} {t : List Char} (h : hasDD (a :: t) = false) :
    hasDD t = false := by
  cases t with
  | nil => rfl
  | cons b t' =>
    simp only [hasDD, Bool.or_eq_false_iff] at h
    exact h.2

lemma hasDD_dropWhile {q : Char → Bool} {l : List Char} (h : hasDD l = false) :
    hasDD (l.dropWhile q) = false := by
  induction l with
  | nil => rfl
  | cons a t ih =>
    by_cases hq : q a
    · simpa [List.dropWhile_cons, hq] using ih (hasDD_tail h)
    · simpa [List.dropWhile_cons, hq] using h

lemma dropWhile_head_not {q : Char → Bool} {l : List Char} {c : Char} {t : List Char}
    (h : l.dropWhile q = c :: t) : q c = false := by
  induction l generalizing c t with
  | nil => simp at h
  | cons a t' ih =>
    by_cases hq : q a
    · exact ih (by simpa [List.dropWhile_cons, hq] using h)
    · rw [List.dropWhile_cons, if_neg hq] at h
      cases h
      simpa using hq

lemma getLast?_dropWhile_of_ne_nil {q : Char → Bool} {l : List Char}
    (h : l.dropWhile q ≠ []) : (l.dropWhile q).getLast? = l.getLast? := by
  conv_rhs => rw [← List.takeWhile_append_dropWhile q l]
  rw [List.getLast?_append_of_ne_nil _ h]

lemma stripDashes_props {y : List Char} (hall : y.all slugChar = true)
    (hdd : hasDD y = false) :
    (stripDashes y).all slugChar = true ∧ hasDD (stripDashes y) = false
    ∧ (stripDashes y).head? ≠ some '-' ∧ (stripDashes y).getLast? ≠ some '-' := by
  have h1 : (y.reverse.dropWhile (· = '-')).all slugChar = true :=
    all_dropWhile_of_all (by rw [List.all_reverse]; exact hall)
  have h2 : ((y.reverse.dropWhile (· = '-')).reverse).all slugChar = true := by
    rw [List.all_reverse]; exact h1
  have hall' : (stripDashes y).all slugChar = true := all_dropWhile_of_all h2
  have d1 : hasDD y.reverse = false := by rw [hasDD_reverse]; exact hdd
  have d2 : hasDD (y.reverse.dropWhile (· = '-')) = false := hasDD_dropWhile d1
  have d3 : hasDD ((y.reverse.dropWhile (· = '-')).reverse) = false := by
    rw [hasDD_reverse]; exact d2
  have hdd' : hasDD (stripDashes y) = false := hasDD_dropWhile d3
  have hh : (stripDashes y).head? ≠ some '-' := by
    cases hc : stripDashes y with
    | nil => simp
    | cons c t =>
      have hb := dropWhile_head_not
        (show ((y.reverse.dropWhile (· = '-')).reverse).dropWhile (· = '-') = c :: t from hc)
      have hne : c ≠ '-' := by simpa using hb
      simp [hne]
  have hl : (stripDashes y).getLast? ≠ some '-' := by
    by_cases hx : stripDashes y = []
    · simp [hx]
    · have henil : y.reverse.dropWhile (· = '-') ≠ [] := by
        intro h0
        apply hx
        show ((y.reverse.dropWhile (· = '-')).reverse).dropWhile (· = '-') = []
        rw [h0]
        rfl
      cases hdw : y.reverse.dropWhile (· = '-') with
      | nil => exact absurd hdw henil
      | cons c t =>
        have hcd : c ≠ '-' := by simpa using dropWhile_head_not hdw
        have e1 : (stripDashes y).getLast?
            = ((y.reverse.dropWhile (· = '-')).reverse).getLast? :=
          getLast?_dropWhile_of_ne_nil hx
        rw [e1, List.getLast?_reverse, hdw]
        simp [hcd]
  exact ⟨hall', hdd', hh, hl⟩

/-- C8: `slugify` lowercases its input, transliterates the fixed
accented-character table, replaces runs of non-alphanumerics by a single
separator, collapses and trims separators, and maps an empty result to
the fallback `"untitled"`; concretely
`slugify "Über Kraft & Licht" = "ueber-kraft-licht"`, and every output is
nonempty, uses only `[a-z0-9-]`, and has no doubled, leading or trailing
separator. -/
theorem C8_slugify :
    slugify (sToL "Über Kraft & Licht") = sToL "ueber-kraft-licht"
    ∧ slugify (sToL " !? ") = sToL "untitled"
    ∧ ∀ s : List Char,
        slugify s ≠ []
        ∧ (slugify s).all slugChar = true
        ∧ hasDD (slugify s) = false
        ∧ (slugify s).head? ≠ some '-'
        ∧ (slugify s).getLast? ≠ some '-' := by
  refine ⟨by decide, by decide, fun s => ?_⟩
  have hx : slugify s =
      (if stripDashes (collapseDashes (subRuns ((pyLower (pyStrip s)).flatMap translitChar))) = []
       then sToL "untitled"
       else stripDashes (collapseDashes (subRuns ((pyLower (pyStrip s)).flatMap translitChar)))) :=
    rfl
  by_cases h : stripDashes (collapseDashes (subRuns ((pyLower (pyStrip s)).flatMap translitChar))) = []
  · rw [hx, if_pos h]
    exact ⟨by decide, by decide, by decide, by decide, by decide⟩
  · rw [hx, if_neg h]
    have hall : (collapseDashes (subRuns ((pyLower (pyStrip s)).flatMap translitChar))).all slugChar = true :=
      collapseGo_all (subRunsGo_all false _) false
    have hdd : hasDD (collapseDashes (subRuns ((pyLower (pyStrip s)).flatMap translitChar))) = false :=
      hasDD_collapseGo false _
    have hp := stripDashes_props hall hdd
    exact ⟨h, hp.1, hp.2.1, hp.2.2.1, hp.2.2.2⟩

/-! ## Collision resolution (claim C3) -/

lemma candSlug_ne_slug (slug : List Char) (n : Nat) : candSlug slug n ≠ slug := by
  intro h
  have hlen := congrArg List.length h
  simp only [candSlug, List.length_append, List.length_cons] at hlen
  omega

lemma resolveGo_is_cand (fs : List (List Char)) (slug ext : List Char) :
    ∀ fuel n, ∃ m, resolveGo fs slug ext fuel n = candSlug slug m := by
  intro fuel
  induction fuel with
  | zero => exact fun n => ⟨n, rfl⟩
  | succ f ih =>
    intro n
    by_cases h : bothFree fs (candSlug slug n) ext
    · exact ⟨n, by simp [resolveGo, h]⟩
    · obtain ⟨m, hm⟩ := ih (n + 1)
      exact ⟨m, by simp [resolveGo, h, hm]⟩

lemma resolveGo_spec (fs : List (List Char)) (slug ext : List Char) :
    ∀ fuel n N, n ≤ N → bothFree fs (candSlug slug N) ext = true →
      (∀ m, n ≤ m → m < N → bothFree fs (candSlug slug m) ext = false) →
      N - n ≤ fuel → resolveGo fs slug ext fuel n = candSlug slug N := by
  intro fuel
  induction fuel with
  | zero =>
    intro n N hnN _ _ hle
    have : N = n := by omega
    subst this
    rfl
  | succ f ih =>
    intro n N hnN hfree hmin hle
    by_cases h : n = N
    · subst h
      simp [resolveGo, hfree]
    · have hlt : n < N := by omega
      have hnot : bothFree fs (candSlug slug n) ext = false := hmin n le_rfl hlt
      rw [show resolveGo fs slug ext (f + 1) n = resolveGo fs slug ext f (n + 1) by
        simp [resolveGo, hnot]]
      exact ih (n + 1) N (by omega) hfree (fun m hm1 hm2 => hmin m (by omega) hm2) (by omega)

/-- C3: collision resolution starts from `images/<slug>.<ext>` and
`works/<slug>.md`; if both are free the bare slug is accepted; otherwise
suffixes `-2`, `-3`, … are tried in increasing order and the first
candidate with both target paths simultaneously free is accepted; a
document-only collision already forces a suffix even when the image path
is free. -/
theorem C3_collision_resolution :
    ∀ (fs : List (List Char)) (slug ext : List Char) (fuel : Nat),
      (bothFree fs slug ext = true → resolveSlug fs slug ext fuel = slug)
      ∧ (∀ N, bothFree fs slug ext = false → 2 ≤ N →
          bothFree fs (candSlug slug N) ext = true →
          (∀ m, 2 ≤ m → m < N → bothFree fs (candSlug slug m) ext = false) →
          N ≤ fuel + 2 →
          resolveSlug fs slug ext fuel = candSlug slug N)
      ∧ (fs.contains (mdPath slug) = true → resolveSlug fs slug ext fuel ≠ slug) := by
  intro fs slug ext fuel
  refine ⟨?_, ?_, ?_⟩
  · intro h
    simp [resolveSlug, h]
  · intro N h0 h2 hfree hmin hle
    rw [resolveSlug, if_neg (by simp [h0])]
    exact resolveGo_spec fs slug ext fuel 2 N h2 hfree hmin (by omega)
  · intro hmd
    have h0 : bothFree fs slug ext = false := by
      unfold bothFree
      rw [hmd]
      simp
    rw [resolveSlug, if_neg (by simp [h0])]
    obtain ⟨m, hm⟩ := resolveGo_is_cand fs slug ext fuel 2
    rw [hm]
    exact candSlug_ne_slug slug m

/-- Witness for C3 at a concrete occupied filesystem: `foo` and `foo-2`
both collide, so the accepted candidate is `foo-3`; and a document-only
collision on `foo` already forces a suffix. -/
theorem C3_collision_resolution_witness :
    bothFree [imgPath (sToL "foo") (sToL "webp"), mdPath (sToL "foo"),
      mdPath (sToL "foo-2")] (sToL "foo") (sToL "webp") = false
    ∧ resolveSlug [imgPath (sToL "foo") (sToL "webp"), mdPath (sToL "foo"),
      mdPath (sToL "foo-2")] (sToL "foo") (sToL "webp") 9 = candSlug (sToL "foo") 3
    ∧ resolveSlug [mdPath (sToL "foo")] (sToL "foo") (sToL "webp") 9 ≠ sToL "foo" := by
  refine ⟨by decide, ?_, ?_⟩
  · exact (C3_collision_resolution _ _ _ _).2.1 3 (by decide) (by decide) (by decide)
      (fun m h1 h2 => by
        have hm : m = 2 := by omega
        subst hm
        decide)
      (by decide)
  · exact (C3_collision_resolution _ _ _ _).2.2 (by decide)

/-! ## Metadata prompts (claim C5) -/

lemma prompt_multiline_of_first_sentinel {ls : List (List Char)}
    (h : sentinelLine (ls.headD ['.']) = true) : prompt_multiline ls = [] := by
  cases hls : ls with
  | nil => rfl
  | cons l rest =>
    rw [hls] at h
    simp only [List.headD_cons] at h
    simp [prompt_multiline, List.takeWhile_cons, h]
    rfl

/-- C5: with net-empty input the two multi-line prompts behave
asymmetrically: immediate sentinel termination of the transcription
prompt yields the recognizer's suggestion as the final transcription,
while immediate sentinel termination of the description prompt yields an
empty description. -/
theorem C5_sentinel_asymmetry :
    ∀ (dt : List Char) (dy : Int) (cr dl lang ocr sf : List Char)
      (inp : PromptInput) (m : WorkMeta),
      prompt_meta dt dy cr dl lang ocr sf inp = .ok m →
      sentinelLine (inp.trans_lines.headD ['.']) = true →
      sentinelLine (inp.desc_lines.headD ['.']) = true →
      m.transcription = ocr ∧ m.description = [] := by
  intro dt dy cr dl lang ocr sf inp m hm ht hd
  have htr : prompt_multiline inp.trans_lines = [] := prompt_multiline_of_first_sentinel ht
  have hde : prompt_multiline inp.desc_lines = [] := prompt_multiline_of_first_sentinel hd
  simp only [prompt_meta] at hm
  cases hY : (if pyStrip inp.year_raw = [] then some dy else pyInt (pyStrip inp.year_raw)) with
  | none =>
    rw [hY] at hm
    exact absurd hm (by simp)
  | some y =>
    rw [hY] at hm
    simp only [Except.ok.injEq] at hm
    subst hm
    refine ⟨?_, hde⟩
    show (if prompt_multiline inp.trans_lines = [] then ocr
          else prompt_multiline inp.trans_lines) = ocr
    rw [htr]
    simp

/-- Witness for C5: a concrete prompt where both multi-line prompts are
terminated immediately with the sentinel line. -/
theorem C5_sentinel_asymmetry_witness :
    prompt_meta (sToL "a") 2026 (sToL "NN") (sToL "CC") (sToL "de") (sToL "OCR TEXT")
      (sToL "a.png") ⟨[], [], [], [], [sToL "."], [sToL "."]⟩
      = .ok ⟨sToL "a", 2026, sToL "NN", sToL "CC", sToL "de", [], [], sToL "OCR TEXT",
             sToL "a.png", [], []⟩
    ∧ (sToL "OCR TEXT" = sToL "OCR TEXT" ∧ ([] : List Char) = []) := by
  refine ⟨rfl, ?_⟩
  have h := C5_sentinel_asymmetry (sToL "a") 2026 (sToL "NN") (sToL "CC") (sToL "de")
    (sToL "OCR TEXT") (sToL "a.png") ⟨[], [], [], [], [sToL "."], [sToL "."]⟩
    ⟨sToL "a", 2026, sToL "NN", sToL "CC", sToL "de", [], [], sToL "OCR TEXT",
     sToL "a.png", [], []⟩ rfl (by decide) (by decide)
  exact ⟨h.1, h.2⟩

/-! ## OCR adapter (claim C6) -/

/-- An environment in which the first `subprocess.run` raises an
exception other than `FileNotFoundError` (e.g. `PermissionError`, which
`subprocess.run` raises for a non-executable `tesseract` on `PATH`). -/
def ocrEnvRaise : OcrEnv := ⟨fun _ => .error .permissionErr, .ok []⟩

/-- C6 counterexample: the first invocation is guarded only by
`except FileNotFoundError`, so a `PermissionError` raised there
propagates out of the adapter instead of degrading to the empty
string. -/
theorem C6_counterexample :
    run_tesseract_ocr ocrEnvRaise (sToL "x.webp") (sToL "deu")
      = .error PyExn.permissionErr := rfl

/-- C6 amended: the adapter returns extracted text or the empty string —
absence of the tool (`FileNotFoundError`), any nonzero exit, and any
exception inside the temp-file fallback all degrade to the empty string —
provided the initial invocation raises nothing but `FileNotFoundError`;
an exception of any other class raised there propagates. -/
theorem C6_degrades :
    ∀ (env : OcrEnv) (p lang : List Char),
      (∀ e, env.shRun (tessCmdStdout p lang) = .error e → e = .fileNotFound) →
      (env.shRun (tessCmdStdout p lang) = .error .fileNotFound →
        run_tesseract_ocr env p lang = .ok [])
      ∧ ∃ t, run_tesseract_ocr env p lang = .ok t := by
  intro env p lang hexn
  constructor
  · intro h
    simp [run_tesseract_ocr, h]
  · cases hsh : env.shRun (tessCmdStdout p lang) with
    | error e =>
      have he : e = .fileNotFound := hexn e hsh
      subst he
      exact ⟨[], by simp [run_tesseract_ocr, hsh]⟩
    | ok pr =>
      obtain ⟨code, out⟩ := pr
      by_cases hc : code = 0
      · exact ⟨pyStrip out, by simp [run_tesseract_ocr, hsh, hc]⟩
      · cases hsh2 : env.shRun (tessCmdFile p lang) with
        | error e2 => exact ⟨[], by simp [run_tesseract_ocr, hsh, hc, hsh2]⟩
        | ok pr2 =>
          cases hrd : env.readTmpTxt with
          | error e3 => exact ⟨[], by simp [run_tesseract_ocr, hsh, hc, hsh2, hrd]⟩
          | ok txt => exact ⟨pyStrip txt, by simp [run_tesseract_ocr, hsh, hc, hsh2, hrd]⟩

/-- An environment in which `tesseract` is absent. -/
def ocrEnvAbsent : OcrEnv := ⟨fun _ => .error .fileNotFound, .error .otherExn⟩

/-- Witness for C6 at a concrete environment without the tool: the
adapter returns the empty string rather than raising. -/
theorem C6_degrades_witness :
    run_tesseract_ocr ocrEnvAbsent (sToL "x.webp") (sToL "deu") = .ok []
    ∧ ∃ t, run_tesseract_ocr ocrEnvAbsent (sToL "x.webp") (sToL "deu") = .ok t := by
  have h := C6_degrades ocrEnvAbsent (sToL "x.webp") (sToL "deu")
    (fun e he => by
      simp only [ocrEnvAbsent] at he
      exact (Except.error.injEq _ _ ▸ he).symm)
  exact ⟨h.1 rfl, h.2⟩

/-! ## Hash bookkeeping of the ingest loop (claim C1) -/

lemma processItem_ok_shape {cfg : Config} {st : LoopSt} {it : SrcItem} {inp : ItemInput}
    {st' : LoopSt} (h : processItem cfg st it inp = .ok st') :
    (∃ r : WorkRec, r.sha256 = it.hash ∧ st'.works = st.works ++ [r])
    ∧ st'.seen = (if st.seen.contains it.hash then st.seen else st.seen ++ [it.hash]) := by
  simp only [processItem] at h
  split at h
  · exact absurd h (by simp)
  · split at h
    · exact absurd h (by simp)
    · simp only [Except.ok.injEq] at h
      subst h
      exact ⟨⟨_, rfl, rfl⟩, rfl⟩

lemma zip_fst_hash_nodup :
    ∀ (a : List SrcItem) (b : List ItemInput),
      (a.map (·.hash)).Nodup → ((a.zip b).map (·.1.hash)).Nodup := by
  intro a
  induction a with
  | nil => intro b _; simp
  | cons x a' ih =>
    intro b h
    cases b with
    | nil => simp
    | cons y b' =>
      simp only [List.zip_cons_cons, List.map_cons, List.nodup_cons] at *
      refine ⟨?_, ih b' h.2⟩
      intro hmem
      obtain ⟨p, hp, hph⟩ := List.mem_map.mp hmem
      have hp1 : p.1 ∈ a' := (List.of_mem_zip hp).1
      exact h.1 (List.mem_map.mpr ⟨p.1, hp1, hph⟩)

lemma processItems_hash_invariant (cfg : Config) :
    ∀ (pairs : List (SrcItem × ItemInput)) (st : LoopSt),
      (st.works.map (·.sha256)).Nodup →
      (∀ w ∈ st.works, w.sha256 ∈ st.seen) →
      ((pairs.map (·.1.hash)).Nodup) →
      (∀ p ∈ pairs, p.1.hash ∉ st.seen) →
      ((processItems cfg st pairs).1.works.map (·.sha256)).Nodup
        ∧ ∀ w ∈ (processItems cfg st pairs).1.works,
            w.sha256 ∈ (processItems cfg st pairs).1.seen := by
  intro pairs
  induction pairs with
  | nil =>
    intro st h1 h2 _ _
    exact ⟨h1, h2⟩
  | cons p rest ih =>
    intro st h1 h2 h3 h4
    obtain ⟨it, inp⟩ := p
    cases hpi : processItem cfg st it inp with
    | error e =>
      simp only [processItems, hpi]
      exact ⟨h1, h2⟩
    | ok st' =>
      simp only [processItems, hpi]
      obtain ⟨⟨r, hr, hw⟩, hs⟩ := processItem_ok_shape hpi
      have hnotin : it.hash ∉ st.seen := h4 (it, inp) (by simp)
      have hnew : it.hash ∉ st.works.map (·.sha256) := by
        intro hmem
        obtain ⟨w, hwm, hwh⟩ := List.mem_map.mp hmem
        exact hnotin (hwh ▸ h2 w hwm)
      have hcontains : st.seen.contains it.hash = false := by
        by_cases hc : st.seen.contains it.hash
        · exact absurd (by simpa using hc) hnotin
        · simpa using hc
      have h1' : (st'.works.map (·.sha256)).Nodup := by
        rw [hw, List.map_append]
        rw [List.nodup_append]
        refine ⟨h1, by simp, ?_⟩
        intro x hx hy
        simp only [List.map_cons, List.map_nil, List.mem_singleton] at hy
        subst hy
        exact hnew (hr ▸ hx)
      have h2' : ∀ w ∈ st'.works, w.sha256 ∈ st'.seen := by
        rw [hw, hs, hcontains]
        intro w hwmem
        simp only [Bool.false_eq_true, if_false, List.mem_append]
        rcases List.mem_append.mp hwmem with hmem | hmem
        · exact Or.inl (h2 w hmem)
        · simp only [List.mem_singleton] at hmem
          subst hmem
          exact Or.inr (by simp [hr])
      have h3' : (rest.map (·.1.hash)).Nodup := by
        simp only [List.map_cons, List.nodup_cons] at h3
        exact h3.2
      have h4' : ∀ q ∈ rest, q.1.hash ∉ st'.seen := by
        intro q hq
        rw [hs, hcontains]
        simp only [Bool.false_eq_true, if_false, List.mem_append, List.mem_singleton]
        rintro (hin | heq)
        · exact h4 q (List.mem_cons_of_mem _ hq) hin
        · simp only [List.map_cons, List.nodup_cons] at h3
          exact h3.1 (heq ▸ List.mem_map.mpr ⟨q, hq, rfl⟩)
      exact ih st' h1' h2' h3' h4'

/-- C1 amended: content hashes are unique across the whole works list —
and every recorded hash is in the seen set — for every run whose batch of
newly discovered images has pairwise-distinct content hashes.  (The
seen-hash set is consulted only at discovery time, so uniqueness against
*earlier* runs is enforced, and within one run it needs this distinctness
hypothesis; see the counterexample.) -/
theorem C1_unique_hashes :
    ∀ (cfg : Config) (fs0 : List (List Char)) (seen0 : List Nat) (works0 : List WorkRec)
      (src : List SrcItem) (inputs : List ItemInput),
      (works0.map (·.sha256)).Nodup →
      (∀ w ∈ works0, w.sha256 ∈ seen0) →
      ((find_new_images src seen0).map (·.hash)).Nodup →
      ((mainModel cfg fs0 seen0 works0 src inputs).works_state.map (·.sha256)).Nodup
        ∧ ∀ w ∈ (mainModel cfg fs0 seen0 works0 src inputs).works_state,
            w.sha256 ∈ (mainModel cfg fs0 seen0 works0 src inputs).seen := by
  intro cfg fs0 seen0 works0 src inputs h1 h2 h3
  have hz1 : (((find_new_images src seen0).zip inputs).map (·.1.hash)).Nodup :=
    zip_fst_hash_nodup _ _ h3
  have hz2 : ∀ p ∈ (find_new_images src seen0).zip inputs, p.1.hash ∉ seen0 := by
    intro p hp
    obtain ⟨it, inp⟩ := p
    have hmem : it ∈ find_new_images src seen0 := (List.of_mem_zip hp).1
    rw [find_new_images] at hmem
    have hpred := List.of_mem_filter hmem
    simp only [Bool.and_eq_true, Bool.not_eq_true'] at hpred
    intro hin
    have : (seen0.contains it.hash) = true := by simpa using hin
    rw [this] at hpred
    simp at hpred
  unfold mainModel
  by_cases hn : find_new_images src seen0 = []
  · rw [if_pos hn]
    exact ⟨h1, h2⟩
  · rw [if_neg hn]
    have hinv := processItems_hash_invariant cfg
      ((find_new_images src seen0).zip inputs) ⟨works0, seen0, fs0, [], []⟩ h1 h2 hz1 hz2
    cases hres : processItems cfg ⟨works0, seen0, fs0, [], []⟩
        ((find_new_images src seen0).zip inputs) with
    | mk st err =>
      rw [hres] at hinv
      cases err with
      | none => exact ⟨hinv.1, hinv.2⟩
      | some e => exact ⟨hinv.1, hinv.2⟩

/-- The two-item batch refuting C1: two distinct source files with
byte-identical content (equal digests). -/
def srcDup : List SrcItem :=
  [⟨sToL "a.png", sToL "a", sToL ".png", true, 7⟩,
   ⟨sToL "b.png", sToL "b", sToL ".png", true, 7⟩]

/-- A configuration for a plain non-dry run with OCR disabled. -/
def cfgPlain : Config :=
  ⟨sToL "webp", false, false, true, true, sToL "NN", sToL "de", sToL "CC BY-SA 4.0", 2026⟩

/-- An operator input taking every default and terminating both
multi-line prompts immediately. -/
def inpDefault : ItemInput := ⟨⟨[], [], [], [], [sToL "."], [sToL "."]⟩, []⟩

/-- C1 counterexample: in a single run over two files with identical
content (same sha256, different names), both pass the discovery-time
seen-set check and two WorkRecords with the same content hash are
appended — the hash is not globally unique. -/
theorem C1_counterexample :
    ((mainModel cfgPlain [] [] [] srcDup [inpDefault, inpDefault]).works_state.map
      (·.sha256)) = [7, 7]
    ∧ ¬ ((mainModel cfgPlain [] [] [] srcDup [inpDefault, inpDefault]).works_state.map
      (·.sha256)).Nodup := by
  exact ⟨rfl, by decide⟩

/-- Witness for C1 at a batch of two distinct-content files. -/
theorem C1_unique_hashes_witness :
    (((mainModel cfgPlain [] [] []
        [⟨sToL "a.png", sToL "a", sToL ".png", true, 7⟩,
         ⟨sToL "b.png", sToL "b", sToL ".png", true, 8⟩]
        [inpDefault, inpDefault]).works_state.map (·.sha256)).Nodup
      ∧ ∀ w ∈ (mainModel cfgPlain [] [] []
        [⟨sToL "a.png", sToL "a", sToL ".png", true, 7⟩,
         ⟨sToL "b.png", sToL "b", sToL ".png", true, 8⟩]
        [inpDefault, inpDefault]).works_state,
          w.sha256 ∈ (mainModel cfgPlain [] [] []
        [⟨sToL "a.png", sToL "a", sToL ".png", true, 7⟩,
         ⟨sToL "b.png", sToL "b", sToL ".png", true, 8⟩]
        [inpDefault, inpDefault]).seen) :=
  C1_unique_hashes cfgPlain [] [] []
    [⟨sToL "a.png", sToL "a", sToL ".png", true, 7⟩,
     ⟨sToL "b.png", sToL "b", sToL ".png", true, 8⟩]
    [inpDefault, inpDefault] (by decide) (by decide) (by decide)

/-! ## Unsupported output format (claim C7) -/

lemma char_toNat_ofNat {n : Nat} (h : Nat.isValidChar n) : (Char.ofNat n).toNat = n := by
  simp only [Char.ofNat, dif_pos h, Char.toNat, Char.ofNatAux, UInt32.toNat,
    BitVec.toNat_ofNatLt]

lemma pyLowerChar_no_more (c : Char) :
    (65 ≤ (pyLowerChar c).toNat && (pyLowerChar c).toNat ≤ 90) = false
    ∧ pyLowerChar c ≠ 'Ä' ∧ pyLowerChar c ≠ 'Ö' ∧ pyLowerChar c ≠ 'Ü' := by
  unfold pyLowerChar
  by_cases h : 65 ≤ c.toNat && c.toNat ≤ 90
  · rw [if_pos h]
    simp only [Bool.and_eq_true, decide_eq_true_eq] at h
    have hv : Nat.isValidChar (c.toNat + 32) := Or.inl (by omega)
    have ht : (Char.ofNat (c.toNat + 32)).toNat = c.toNat + 32 := char_toNat_ofNat hv
    refine ⟨?_, ?_, ?_, ?_⟩
    · rw [ht]
      simp only [Bool.and_eq_false_iff, decide_eq_false_iff_not]
      right
      omega
    · intro he
      rw [he] at ht
      have h196 : ('Ä').toNat = 196 := by decide
      omega
    · intro he
      rw [he] at ht
      have h214 : ('Ö').toNat = 214 := by decide
      omega
    · intro he
      rw [he] at ht
      have h220 : ('Ü').toNat = 220 := by decide
      omega
  · rw [if_neg h]
    by_cases h1 : c = 'Ä'
    · rw [if_pos h1]
      exact ⟨by decide, by decide, by decide, by decide⟩
    · rw [if_neg h1]
      by_cases h2 : c = 'Ö'
      · rw [if_pos h2]
        exact ⟨by decide, by decide, by decide, by decide⟩
      · rw [if_neg h2]
        by_cases h3 : c = 'Ü'
        · rw [if_pos h3]
          exact ⟨by decide, by decide, by decide, by decide⟩
        · rw [if_neg h3]
          exact ⟨by simpa using h, h1, h2, h3⟩

lemma pyLowerChar_idem (c : Char) : pyLowerChar (pyLowerChar c) = pyLowerChar c := by
  obtain ⟨h0, h1, h2, h3⟩ := pyLowerChar_no_more c
  conv_lhs => rw [pyLowerChar]
  rw [if_neg (by simp [h0]), if_neg h1, if_neg h2, if_neg h3]

lemma pyLower_idem (l : List Char) : pyLower (pyLower l) = pyLower l := by
  unfold pyLower
  rw [List.map_map]
  simp only [Function.comp_def, pyLowerChar_idem]

/-- A dry-run configuration with a supported output format. -/
def cfgDry : Config :=
  ⟨sToL "webp", false, true, true, true, sToL "NN", sToL "de", sToL "CC BY-SA 4.0", 2026⟩

/-- A single fresh supported source image. -/
def srcOne : List SrcItem := [⟨sToL "a.png", sToL "a", sToL ".png", true, 7⟩]

/-- C2 (claim violated by the code): with dry-run active and one new
image, the run completes, skips README regeneration, state/manifest
persistence, archival and commit/push — but still creates `sitemap.xml`
(ingest.py lines 457-473 are not guarded by `dry_run`), so files are
created and the working tree is mutated. -/
theorem C2_dry_run_writes_sitemap :
    (mainModel cfgDry [] [] [] srcOne [inpDefault]).exit = .ok 0
    ∧ (mainModel cfgDry [] [] [] srcOne [inpDefault]).sitemapWritten = true
    ∧ (mainModel cfgDry [] [] [] srcOne [inpDefault]).fs = [sToL "sitemap.xml"]
    ∧ (mainModel cfgDry [] [] [] srcOne [inpDefault]).filesWritten = [sToL "sitemap.xml"]
    ∧ (mainModel cfgDry [] [] [] srcOne [inpDefault]).statePersisted = false
    ∧ (mainModel cfgDry [] [] [] srcOne [inpDefault]).manifestPersisted = false
    ∧ (mainModel cfgDry [] [] [] srcOne [inpDefault]).readmeWritten = false
    ∧ (mainModel cfgDry [] [] [] srcOne [inpDefault]).gitInvoked = false
    ∧ (mainModel cfgDry [] [] [] srcOne [inpDefault]).archived = [] :=
  ⟨rfl, rfl, rfl, rfl, rfl, rfl, rfl, rfl, rfl⟩

/-! ## Unsupported output format aborts (claim C7) -/

/-- A dry-run configuration with the unsupported format `gif`. -/
def cfgGifDry : Config :=
  ⟨sToL "gif", false, true, true, true, sToL "NN", sToL "de", sToL "CC BY-SA 4.0", 2026⟩

/-- C7 counterexample: a dry run with an unsupported output format does
not fail at all — conversion (and with it the only format validation) is
skipped per item, so the run completes with exit 0 and even processes the
item. -/
theorem C7_counterexample :
    (mainModel cfgGifDry [] [] [] srcOne [inpDefault]).exit = .ok 0
    ∧ (mainModel cfgGifDry [] [] [] srcOne [inpDefault]).works_state.length = 1 :=
  ⟨rfl, rfl⟩

/-- C7 amended: in a non-dry run with at least one discovered image, an
unsupported output format raises an uncaught `ValueError` during the
first item's conversion — before any prompting, write or archival for any
item — so the process aborts (exits non-zero) with the loaded works list
unchanged and no end-of-run side effect executed. -/
theorem C7_unsupported_format :
    ∀ (cfg : Config) (fs0 : List (List Char)) (seen0 : List Nat) (works0 : List WorkRec)
      (src : List SrcItem) (it : SrcItem) (rest : List SrcItem)
      (inp : ItemInput) (inputs : List ItemInput),
      cfg.dry_run = false →
      ((pyLower cfg.output_format = sToL "webp" ∨ pyLower cfg.output_format = sToL "jpg"
        ∨ pyLower cfg.output_format = sToL "jpeg" ∨ pyLower cfg.output_format = sToL "png")
        → False) →
      find_new_images src seen0 = it :: rest →
      (mainModel cfg fs0 seen0 works0 src (inp :: inputs)).exit
          = .error (.unsupportedFormat (pyLower cfg.output_format))
        ∧ (mainModel cfg fs0 seen0 works0 src (inp :: inputs)).works_state = works0
        ∧ (mainModel cfg fs0 seen0 works0 src (inp :: inputs)).filesWritten = []
        ∧ (mainModel cfg fs0 seen0 works0 src (inp :: inputs)).archived = []
        ∧ (mainModel cfg fs0 seen0 works0 src (inp :: inputs)).statePersisted = false
        ∧ (mainModel cfg fs0 seen0 works0 src (inp :: inputs)).manifestPersisted = false
        ∧ (mainModel cfg fs0 seen0 works0 src (inp :: inputs)).readmeWritten = false
        ∧ (mainModel cfg fs0 seen0 works0 src (inp :: inputs)).sitemapWritten = false
        ∧ (mainModel cfg fs0 seen0 works0 src (inp :: inputs)).gitInvoked = false := by
  intro cfg fs0 seen0 works0 src it rest inp inputs hd hfmt hn
  have hpi : processItem cfg ⟨works0, seen0, fs0, [], []⟩ it inp
      = .error (.unsupportedFormat (pyLower (pyLower cfg.output_format))) := by
    simp only [processItem, hd, Bool.false_eq_true, if_false, web_convert]
    rw [if_neg (by rw [pyLower_idem]; exact hfmt)]
  unfold mainModel
  rw [hn, if_neg (by simp)]
  have hz : (it :: rest).zip (inp :: inputs) = (it, inp) :: rest.zip inputs := rfl
  rw [hz]
  simp only [processItems, hpi]
  simp [pyLower_idem]

/-- A non-dry configuration with the unsupported format `gif`. -/
def cfgGif : Config :=
  ⟨sToL "gif", false, false, true, true, sToL "NN", sToL "de", sToL "CC BY-SA 4.0", 2026⟩

/-- Witness for C7: a concrete non-dry run over one fresh image with
format `gif` aborts with the `ValueError` and performs no end-of-run side
effect. -/
theorem C7_unsupported_format_witness :
    (mainModel cfgGif [] [] [] srcOne [inpDefault]).exit
        = .error (.unsupportedFormat (pyLower cfgGif.output_format))
      ∧ (mainModel cfgGif [] [] [] srcOne [inpDefault]).works_state = []
      ∧ (mainModel cfgGif [] [] [] srcOne [inpDefault]).filesWritten = []
      ∧ (mainModel cfgGif [] [] [] srcOne [inpDefault]).archived = []
      ∧ (mainModel cfgGif [] [] [] srcOne [inpDefault]).statePersisted = false
      ∧ (mainModel cfgGif [] [] [] srcOne [inpDefault]).manifestPersisted = false
      ∧ (mainModel cfgGif [] [] [] srcOne [inpDefault]).readmeWritten = false
      ∧ (mainModel cfgGif [] [] [] srcOne [inpDefault]).sitemapWritten = false
      ∧ (mainModel cfgGif [] [] [] srcOne [inpDefault]).gitInvoked = false :=
  C7_unsupported_format cfgGif [] [] [] srcOne
    ⟨sToL "a.png", sToL "a", sToL ".png", true, 7⟩ [] inpDefault []
    rfl (by decide) (by decide)

/-! ## Invalid year input aborts the run unpersisted (claim C10) -/

lemma prompt_meta_year_error {inp : PromptInput} (hne : pyStrip inp.year_raw ≠ [])
    (hpin : pyInt (pyStrip inp.year_raw) = none) (dt : List Char) (dy : Int)
    (cr dl lang ocr sf : List Char) :
    prompt_meta dt dy cr dl lang ocr sf inp = .error (pyStrip inp.year_raw) := by
  simp only [prompt_meta]
  rw [if_neg hne, hpin]

/-- C10: a non-empty Year answer that is not a valid decimal integer
raises an uncaught `ValueError` in `prompt_meta`; the exception aborts
`main`, so neither state nor manifest (nor README, sitemap, commit) is
persisted for any item of the batch — including items already archived
earlier in the same run. -/
theorem C10_year_value_error :
    (∀ (cfg : Config) (fs0 : List (List Char)) (seen0 : List Nat) (works0 : List WorkRec)
       (src : List SrcItem) (inputs : List ItemInput) (s : List Char),
      (mainModel cfg fs0 seen0 works0 src inputs).exit = .error (.yearValueError s) →
      (mainModel cfg fs0 seen0 works0 src inputs).statePersisted = false
        ∧ (mainModel cfg fs0 seen0 works0 src inputs).manifestPersisted = false
        ∧ (mainModel cfg fs0 seen0 works0 src inputs).readmeWritten = false
        ∧ (mainModel cfg fs0 seen0 works0 src inputs).sitemapWritten = false
        ∧ (mainModel cfg fs0 seen0 works0 src inputs).gitInvoked = false)
    ∧ (∀ (cfg : Config) (st : LoopSt) (it : SrcItem) (inp : ItemInput),
        (cfg.dry_run = true
          ∨ (cfg.dry_run = false
              ∧ (pyLower cfg.output_format = sToL "webp"
                ∨ pyLower cfg.output_format = sToL "jpg"
                ∨ pyLower cfg.output_format = sToL "jpeg"
                ∨ pyLower cfg.output_format = sToL "png"))) →
        pyStrip inp.prompt.year_raw ≠ [] →
        pyInt (pyStrip inp.prompt.year_raw) = none →
        processItem cfg st it inp = .error (.yearValueError (pyStrip inp.prompt.year_raw))) := by
  constructor
  · intro cfg fs0 seen0 works0 src inputs s h
    unfold mainModel at h ⊢
    by_cases hn : find_new_images src seen0 = []
    · rw [if_pos hn] at h
      exact absurd h (by simp)
    · rw [if_neg hn] at h ⊢
      cases hres : processItems cfg ⟨works0, seen0, fs0, [], []⟩
          ((find_new_images src seen0).zip inputs) with
      | mk st err =>
        rw [hres] at h
        cases err with
        | none => exact absurd h (by simp)
        | some e => exact ⟨rfl, rfl, rfl, rfl, rfl⟩
  · intro cfg st it inp hconv hne hpin
    simp only [processItem]
    rcases hconv with hd | ⟨hd, hfmt⟩
    · simp only [hd, if_true]
      rw [prompt_meta_year_error hne hpin]
    · simp only [hd, Bool.false_eq_true, if_false, web_convert]
      rw [if_pos (by rw [pyLower_idem]; exact hfmt)]
      rw [prompt_meta_year_error hne hpin]

/-- The operator input answering `19xx` at the Year prompt. -/
def inpBadYear : ItemInput := ⟨⟨[], sToL "19xx", [], [], [sToL "."], [sToL "."]⟩, []⟩

/-- Witness for C10: in a concrete two-item batch whose second Year
answer is `19xx`, the first item is already archived when the run aborts
with the `ValueError`, and nothing is persisted. -/
theorem C10_year_value_error_witness :
    (mainModel cfgPlain [] [] []
        [⟨sToL "a.png", sToL "a", sToL ".png", true, 7⟩,
         ⟨sToL "b.png", sToL "b", sToL ".png", true, 8⟩]
        [inpDefault, inpBadYear]).exit = .error (.yearValueError (sToL "19xx"))
    ∧ (mainModel cfgPlain [] [] []
        [⟨sToL "a.png", sToL "a", sToL ".png", true, 7⟩,
         ⟨sToL "b.png", sToL "b", sToL ".png", true, 8⟩]
        [inpDefault, inpBadYear]).archived = [sToL "a.png"]
    ∧ (mainModel cfgPlain [] [] []
        [⟨sToL "a.png", sToL "a", sToL ".png", true, 7⟩,
         ⟨sToL "b.png", sToL "b", sToL ".png", true, 8⟩]
        [inpDefault, inpBadYear]).statePersisted = false
    ∧ (mainModel cfgPlain [] [] []
        [⟨sToL "a.png", sToL "a", sToL ".png", true, 7⟩,
         ⟨sToL "b.png", sToL "b", sToL ".png", true, 8⟩]
        [inpDefault, inpBadYear]).manifestPersisted = false
    ∧ processItem cfgPlain ⟨[], [], [], [], []⟩
        ⟨sToL "b.png", sToL "b", sToL ".png", true, 8⟩ inpBadYear
        = .error (.yearValueError (sToL "19xx")) := by
  have h1 := C10_year_value_error.1 cfgPlain [] [] []
    [⟨sToL "a.png", sToL "a", sToL ".png", true, 7⟩,
     ⟨sToL "b.png", sToL "b", sToL ".png", true, 8⟩]
    [inpDefault, inpBadYear] (sToL "19xx") rfl
  have h2 := C10_year_value_error.2 cfgPlain ⟨[], [], [], [], []⟩
    ⟨sToL "b.png", sToL "b", sToL ".png", true, 8⟩ inpBadYear
    (Or.inr ⟨rfl, Or.inl (by decide)⟩) (by decide) (by decide)
  have h19 : pyStrip inpBadYear.prompt.year_raw = sToL "19xx" := by decide
  rw [h19] at h2
  exact ⟨rfl, rfl, h1.1, h1.2.1, h2⟩

/-! ## Substring occurrences (claims C4 and C9)

The marker-splicing of `update_readme` is analysed through the
first-occurrence function `findOcc` and the occurrence predicate
`occursAt`. -/

lemma startsWith_iff {p s : List Char} : startsWith p s = true ↔ ∃ t, s = p ++ t := by
  induction p generalizing s with
  | nil => simp [startsWith]
  | cons a as ih =>
    cases s with
    | nil =>
      simp only [startsWith]
      constructor
      · intro h
        exact absurd h (by simp)
      · rintro ⟨t, ht⟩
        exact absurd ht (by simp)
    | cons b bs =>
      simp only [startsWith, Bool.and_eq_true, decide_eq_true_eq]
      rw [ih]
      constructor
      · rintro ⟨hab, t, ht⟩
        exact ⟨t, by rw [hab, ht]; rfl⟩
      · rintro ⟨t, ht⟩
        simp only [List.cons_append, List.cons.injEq] at ht
        exact ⟨ht.1.symm, t, ht.2⟩

lemma startsWith_self_append (p t : List Char) : startsWith p (p ++ t) = true :=
  startsWith_iff.mpr ⟨t, rfl⟩

lemma startsWith_length_le {p s : List Char} (h : startsWith p s = true) :
    p.length ≤ s.length := by
  obtain ⟨t, ht⟩ := startsWith_iff.mp h
  rw [ht, List.length_append]
  omega

lemma startsWith_of_append_left {p x y : List Char} (h : startsWith p x = true) :
    startsWith p (x ++ y) = true := by
  obtain ⟨t, ht⟩ := startsWith_iff.mp h
  exact startsWith_iff.mpr ⟨t ++ y, by rw [ht, List.append_assoc]⟩

lemma startsWith_restrict {p x y : List Char} (h : startsWith p (x ++ y) = true)
    (hl : p.length ≤ x.length) : startsWith p x = true := by
  obtain ⟨t, ht⟩ := startsWith_iff.mp h
  refine startsWith_iff.mpr ⟨x.drop p.length, ?_⟩
  have h1 : x.take p.length = p := by
    have : (x ++ y).take p.length = x.take p.length := List.take_append_of_le_length hl
    rw [ht] at this
    rw [← this, List.take_left' rfl]
  conv_lhs => rw [← List.take_append_drop p.length x, h1]

lemma occursAt_zero (sep s : List Char) : occursAt sep s 0 = startsWith sep s := rfl

lemma occursAt_cons (sep : List Char) (c : Char) (l : List Char) (j : Nat) :
    occursAt sep (c :: l) (j + 1) = occursAt sep l j := rfl

lemma occursAt_nil {sep : List Char} (hsep : sep ≠ []) (j : Nat) :
    occursAt sep [] j = false := by
  cases sep with
  | nil => exact absurd rfl hsep
  | cons a as => simp [occursAt, startsWith]

lemma occursAt_fit {sep l : List Char} {j : Nat} (hsep : sep ≠ [])
    (h : occursAt sep l j = true) : j + sep.length ≤ l.length := by
  have h1 := startsWith_length_le h
  rw [List.length_drop] at h1
  by_cases hj : j ≤ l.length
  · omega
  · rw [occursAt, List.drop_eq_nil_of_le (by omega)] at h
    cases sep with
    | nil => exact absurd rfl hsep
    | cons a as => exact absurd h (by simp [startsWith])

lemma occursAt_of_ge {sep l : List Char} (hsep : sep ≠ []) {j : Nat}
    (hj : l.length ≤ j) : occursAt sep l j = false := by
  by_cases h : occursAt sep l j = true
  · have := occursAt_fit hsep h
    cases sep with
    | nil => exact absurd rfl hsep
    | cons a as => simp at this; omega
  · simpa using h

lemma noOcc_of_bounded {sep l : List Char} (hsep : sep ≠ [])
    (h : ∀ j < l.length, occursAt sep l j = false) : ∀ j, occursAt sep l j = false := by
  intro j
  by_cases hj : j < l.length
  · exact h j hj
  · exact occursAt_of_ge hsep (by omega)

lemma occursAt_append_left {sep a b : List Char} {j : Nat} (hsep : sep ≠ [])
    (h : occursAt sep a j = true) : occursAt sep (a ++ b) j = true := by
  have hfit := occursAt_fit hsep h
  rw [occursAt] at h ⊢
  rw [List.drop_append_of_le_length (by omega)]
  exact startsWith_of_append_left h

lemma occursAt_restrict {sep a b : List Char} {j : Nat}
    (h : occursAt sep (a ++ b) j = true) (hle : j + sep.length ≤ a.length) :
    occursAt sep a j = true := by
  rw [occursAt] at h ⊢
  rw [List.drop_append_of_le_length (by omega)] at h
  exact startsWith_restrict h (by rw [List.length_drop]; omega)

lemma occursAt_shift {sep b : List Char} {j : Nat} (a : List Char)
    (h : occursAt sep b j = true) :
    occursAt sep (a ++ b) (a.length + j) = true := by
  rw [occursAt, List.drop_append]
  exact h

lemma occursAt_shift_down {sep a b : List Char} {j : Nat}
    (h : occursAt sep (a ++ b) j = true) (hj : a.length ≤ j) :
    occursAt sep b (j - a.length) = true := by
  rw [occursAt] at h ⊢
  rw [show j = a.length + (j - a.length) by omega, List.drop_append] at h
  exact h

lemma occursAt_getElem {sep s : List Char} {j : Nat} (h : occursAt sep s j = true) :
    ∀ k < sep.length, s[j + k]? = sep[k]? := by
  intro k hk
  obtain ⟨t, ht⟩ := startsWith_iff.mp h
  have h1 : (s.drop j)[k]? = s[j + k]? := List.getElem?_drop ..
  rw [← h1, ht, List.getElem?_append_left hk]

lemma no_newline_straddle {sep T : List Char} {j m : Nat}
    (hc : sep.contains '\n' = false) (hocc : occursAt sep T j = true)
    (hm : T[m]? = some '\n') (h1 : j ≤ m) (h2 : m < j + sep.length) : False := by
  have hg := occursAt_getElem hocc (m - j) (by omega)
  rw [show j + (m - j) = m by omega, hm] at hg
  have hmem : '\n' ∈ sep := by
    obtain ⟨hlt, he⟩ := List.getElem?_eq_some_iff.mp hg.symm
    exact he ▸ List.getElem_mem hlt
  rw [← List.elem_iff] at hmem
  simp only [List.contains] at hc
  rw [hmem] at hc
  exact absurd hc (by simp)

lemma startsWith_nil_false {sep : List Char} (hsep : sep ≠ []) :
    startsWith sep [] = false := by
  cases sep with
  | nil => exact absurd rfl hsep
  | cons a as => rfl

lemma findOcc_none_iff {sep : List Char} (hsep : sep ≠ []) :
    ∀ {s : List Char}, findOcc sep s = none ↔ ∀ j, occursAt sep s j = false := by
  intro s
  induction s with
  | nil =>
    rw [findOcc, startsWith_nil_false hsep]
    simp only [Bool.false_eq_true, if_false]
    exact ⟨fun _ j => occursAt_nil hsep j, fun _ => trivial⟩
  | cons c t ih =>
    rw [findOcc]
    by_cases hsw : startsWith sep (c :: t) = true
    · rw [if_pos hsw]
      constructor
      · intro h
        exact absurd h (by simp)
      · intro h
        have h0 := h 0
        rw [occursAt_zero, hsw] at h0
        exact absurd h0 (by simp)
    · rw [if_neg hsw]
      constructor
      · intro h j
        have hn : findOcc sep t = none := by
          cases hft : findOcc sep t with
          | none => rfl
          | some i =>
            rw [hft] at h
            exact absurd h (by simp)
        cases j with
        | zero =>
          rw [occursAt_zero]
          simpa using hsw
        | succ j =>
          rw [occursAt_cons]
          exact (ih.mp hn) j
      · intro h
        have hnone : findOcc sep t = none := ih.mpr (fun j => by
          have := h (j + 1)
          rwa [occursAt_cons] at this)
        rw [hnone]
        rfl

lemma findOcc_some_iff {sep : List Char} (hsep : sep ≠ []) :
    ∀ {s : List Char} {i : Nat},
      findOcc sep s = some i ↔
        occursAt sep s i = true ∧ ∀ j < i, occursAt sep s j = false := by
  intro s
  induction s with
  | nil =>
    intro i
    rw [findOcc, startsWith_nil_false hsep]
    simp only [Bool.false_eq_true, if_false]
    constructor
    · intro h
      exact absurd h (by simp)
    · rintro ⟨h1, _⟩
      rw [occursAt_nil hsep] at h1
      exact absurd h1 (by simp)
  | cons c t ih =>
    intro i
    rw [findOcc]
    by_cases hsw : startsWith sep (c :: t) = true
    · rw [if_pos hsw]
      constructor
      · intro h
        have hi : i = 0 := by
          have := Option.some.injEq 0 i ▸ h
          simpa using h.symm
        subst hi
        exact ⟨hsw, fun j hj => absurd hj (by omega)⟩
      · rintro ⟨h1, h2⟩
        cases i with
        | zero => rfl
        | succ i =>
          have h0 := h2 0 (by omega)
          rw [occursAt_zero, hsw] at h0
          exact absurd h0 (by simp)
    · rw [if_neg hsw]
      cases i with
      | zero =>
        constructor
        · intro h
          cases hft : findOcc sep t with
          | none =>
            rw [hft] at h
            exact absurd h (by simp)
          | some k =>
            rw [hft] at h
            simp at h
        · rintro ⟨h1, _⟩
          rw [occursAt_zero] at h1
          rw [h1] at hsw
          exact absurd rfl hsw
      | succ i =>
        constructor
        · intro h
          cases hft : findOcc sep t with
          | none =>
            rw [hft] at h
            exact absurd h (by simp)
          | some k =>
            rw [hft] at h
            simp only [Option.map_some', Option.some.injEq] at h
            have hk : k = i := by omega
            subst hk
            obtain ⟨ho, hmin⟩ := ih.mp hft
            refine ⟨by rw [occursAt_cons]; exact ho, ?_⟩
            intro j hj
            cases j with
            | zero =>
              rw [occursAt_zero]
              simpa using hsw
            | succ j =>
              rw [occursAt_cons]
              exact hmin j (by omega)
        · rintro ⟨h1, h2⟩
          rw [occursAt_cons] at h1
          have hmin : ∀ j < i, occursAt sep t j = false := fun j hj => by
            have := h2 (j + 1) (by omega)
            rwa [occursAt_cons] at this
          rw [ih.mpr ⟨h1, hmin⟩]
          rfl

lemma findOcc_some_ne_nil {sep s : List Char} {i : Nat} (hsep : sep ≠ [])
    (h : findOcc sep s = some i) : s ≠ [] := by
  intro h0
  subst h0
  rw [findOcc, startsWith_nil_false hsep] at h
  exact absurd h (by simp)

lemma pySplitF_congr {sep : List Char} (hsep : sep ≠ []) :
    ∀ (n : Nat) (s : List Char) (f₁ f₂ : Nat), s.length ≤ n → s.length ≤ f₁ →
      s.length ≤ f₂ → pySplitF sep f₁ s = pySplitF sep f₂ s := by
  intro n
  induction n with
  | zero =>
    intro s f₁ f₂ hn _ _
    have hs : s = [] := List.length_eq_zero.mp (by omega)
    subst hs
    have hnone : findOcc sep [] = none := by
      rw [findOcc, startsWith_nil_false hsep]
      rfl
    cases f₁ <;> cases f₂ <;> simp [pySplitF, hnone]
  | succ n ih =>
    intro s f₁ f₂ hn h₁ h₂
    cases hfo : findOcc sep s with
    | none =>
      cases f₁ <;> cases f₂ <;> simp [pySplitF, hfo]
    | some i =>
      have hne : s ≠ [] := findOcc_some_ne_nil hsep hfo
      have hpos : 1 ≤ s.length := List.length_pos.mpr hne
      have hsl : 1 ≤ sep.length := List.length_pos.mpr hsep
      cases f₁ with
      | zero => omega
      | succ g₁ =>
        cases f₂ with
        | zero => omega
        | succ g₂ =>
          simp only [pySplitF, hfo]
          rw [ih (s.drop (i + sep.length)) g₁ g₂
            (by rw [List.length_drop]; omega)
            (by rw [List.length_drop]; omega)
            (by rw [List.length_drop]; omega)]

lemma pySplit_step {sep s : List Char} {i : Nat} (hsep : sep ≠ [])
    (h : findOcc sep s = some i) :
    pySplit sep s = s.take i :: pySplit sep (s.drop (i + sep.length)) := by
  have hne : s ≠ [] := findOcc_some_ne_nil hsep h
  have hpos : 1 ≤ s.length := List.length_pos.mpr hne
  have hsl : 1 ≤ sep.length := List.length_pos.mpr hsep
  obtain ⟨n, hn⟩ : ∃ n, s.length = n + 1 := ⟨s.length - 1, by omega⟩
  show pySplitF sep s.length s = _
  rw [hn]
  simp only [pySplitF, h]
  rw [pySplitF_congr hsep ((s.drop (i + sep.length)).length) (s.drop (i + sep.length)) n
    ((s.drop (i + sep.length)).length) le_rfl
    (by rw [List.length_drop]; omega) le_rfl]
  rfl

lemma pySplit_none {sep s : List Char} (h : findOcc sep s = none) :
    pySplit sep s = [s] := by
  show pySplitF sep s.length s = _
  cases hf : s.length with
  | zero => rfl
  | succ n => simp only [pySplitF, h]

lemma occursAt_peel {sep a b : List Char} {j : Nat} (_hsep : sep ≠ [])
    (hc : sep.contains '\n' = false)
    (h : occursAt sep (a ++ '\n' :: b) j = true) :
    occursAt sep a j = true
      ∨ (a.length + 1 ≤ j ∧ occursAt sep b (j - (a.length + 1)) = true) := by
  by_cases hj1 : j + sep.length ≤ a.length
  · exact Or.inl (occursAt_restrict h hj1)
  · by_cases hj2 : a.length + 1 ≤ j
    · refine Or.inr ⟨hj2, ?_⟩
      have h' : occursAt sep ((a ++ ['\n']) ++ b) j = true := by
        rw [show (a ++ ['\n']) ++ b = a ++ '\n' :: b by simp]
        exact h
      have hd := occursAt_shift_down h' (by simp; omega)
      simpa using hd
    · exfalso
      have hmid : (a ++ '\n' :: b)[a.length]? = some '\n' := by
        rw [List.getElem?_append_right le_rfl]
        simp
      exact no_newline_straddle hc h hmid (by omega) (by omega)

lemma findOcc_skip {sep a b : List Char} (hsep : sep ≠ [])
    (hc : sep.contains '\n' = false) (ha : ∀ j, occursAt sep a j = false) :
    findOcc sep (a ++ '\n' :: b)
      = (findOcc sep b).map (fun i => a.length + 1 + i) := by
  cases hfb : findOcc sep b with
  | none =>
    rw [(findOcc_none_iff hsep).mpr]
    · rfl
    · intro j
      by_cases h : occursAt sep (a ++ '\n' :: b) j = true
      · rcases occursAt_peel hsep hc h with h1 | ⟨h2, h3⟩
        · rw [ha j] at h1
          exact absurd h1 (by simp)
        · rw [(findOcc_none_iff hsep).mp hfb] at h3
          exact absurd h3 (by simp)
      · simpa using h
  | some i =>
    obtain ⟨ho, hmin⟩ := (findOcc_some_iff hsep).mp hfb
    simp only [Option.map_some']
    apply (findOcc_some_iff hsep).mpr
    constructor
    · have hs := occursAt_shift (a ++ ['\n']) ho
      rw [show (a ++ ['\n']) ++ b = a ++ '\n' :: b by simp] at hs
      simpa [Nat.add_assoc] using hs
    · intro j hj
      by_cases h : occursAt sep (a ++ '\n' :: b) j = true
      · rcases occursAt_peel hsep hc h with h1 | ⟨h2, h3⟩
        · rw [ha j] at h1
          exact absurd h1 (by simp)
        · have hm := hmin (j - (a.length + 1)) (by omega)
          rw [hm] at h3
          exact absurd h3 (by simp)
      · simpa using h

lemma joinNL_cons {l : List Char} {ls : List (List Char)} (h : ls ≠ []) :
    joinNL (l :: ls) = l ++ '\n' :: joinNL ls := by
  cases ls with
  | nil => exact absurd rfl h
  | cons l' ls' => rfl

lemma joinNL_append {xs ys : List (List Char)} (hx : xs ≠ []) (hy : ys ≠ []) :
    joinNL (xs ++ ys) = joinNL xs ++ '\n' :: joinNL ys := by
  induction xs with
  | nil => exact absurd rfl hx
  | cons l xs' ih =>
    by_cases hxs : xs' = []
    · subst hxs
      rw [show ([l] : List (List Char)) ++ ys = l :: ys by rfl, joinNL_cons hy]
      rfl
    · have hne : xs' ++ ys ≠ [] := by
        simp [hxs]
      rw [List.cons_append, joinNL_cons hne, ih hxs, joinNL_cons hxs]
      simp [List.append_assoc]

lemma noOcc_joinNL {sep : List Char} (hsep : sep ≠ [])
    (hc : sep.contains '\n' = false) :
    ∀ (lines : List (List Char)),
      (∀ l ∈ lines, ∀ j, occursAt sep l j = false) →
      ∀ j, occursAt sep (joinNL lines) j = false := by
  intro lines
  induction lines with
  | nil =>
    intro _ j
    exact occursAt_nil hsep j
  | cons l ls ih =>
    intro h j
    by_cases hls : ls = []
    · subst hls
      exact h l (by simp) j
    · rw [joinNL_cons hls]
      by_cases hocc : occursAt sep (l ++ '\n' :: joinNL ls) j = true
      · rcases occursAt_peel hsep hc hocc with h1 | ⟨h2, h3⟩
        · rw [h l (by simp) j] at h1
          exact absurd h1 (by simp)
        · rw [ih (fun x hx => h x (by simp [hx])) _] at h3
          exact absurd h3 (by simp)
      · simpa using hocc

lemma dropWhile_idem {p : Char → Bool} (l : List Char) :
    (l.dropWhile p).dropWhile p = l.dropWhile p := by
  induction l with
  | nil => rfl
  | cons a t ih =>
    by_cases hp : p a
    · rw [List.dropWhile_cons, if_pos hp, ih]
    · rw [List.dropWhile_cons, if_neg hp, List.dropWhile_cons, if_neg hp]

lemma pyRstrip_decompose (l : List Char) : ∃ t, l = pyRstrip l ++ t := by
  refine ⟨(l.reverse.takeWhile wsChar).reverse, ?_⟩
  rw [pyRstrip]
  conv_rhs => rw [← List.reverse_append, List.takeWhile_append_dropWhile,
    List.reverse_reverse]

lemma pyRstrip_concat_newline (l : List Char) : pyRstrip (l ++ ['\n']) = pyRstrip l := by
  rw [pyRstrip, pyRstrip, List.reverse_append]
  rfl

lemma pyRstrip_idem (l : List Char) : pyRstrip (pyRstrip l) = pyRstrip l := by
  simp only [pyRstrip, List.reverse_reverse, dropWhile_idem]

lemma pyLstrip_cons_newline (l : List Char) : pyLstrip ('\n' :: l) = pyLstrip l := rfl

lemma pyLstrip_idem (l : List Char) : pyLstrip (pyLstrip l) = pyLstrip l :=
  dropWhile_idem l

lemma pyLstrip_decompose (l : List Char) : ∃ k, pyLstrip l = l.drop k := by
  refine ⟨(l.takeWhile wsChar).length, ?_⟩
  calc pyLstrip l = l.dropWhile wsChar := rfl
    _ = List.drop (l.takeWhile wsChar).length (l.takeWhile wsChar ++ l.dropWhile wsChar) := by
          rw [List.drop_left]
    _ = List.drop (l.takeWhile wsChar).length l := by
          rw [List.takeWhile_append_dropWhile]

lemma markerA_ne_nil : markerA ≠ [] := by decide

lemma markerB_ne_nil : markerB ≠ [] := by decide

lemma markerA_no_newline : markerA.contains '\n' = false := by decide

lemma markerB_no_newline : markerB.contains '\n' = false := by decide

lemma noOcc_markerB_in_markerA : ∀ j, occursAt markerB markerA j = false :=
  noOcc_of_bounded markerB_ne_nil (by decide)

lemma noOcc_markerB_in_wtitle : ∀ j, occursAt markerB (sToL "## Werke") j = false :=
  noOcc_of_bounded markerB_ne_nil (by decide)

lemma startsWith_markerB_newline (x : List Char) :
    startsWith markerB ('\n' :: x) = false := by
  rw [show markerB = '<' :: sToL "!-- INDEX:END -->" from rfl]
  simp [startsWith]

lemma mem_insertBy {α : Type} {le : α → α → Bool} {a x : α} {l : List α} :
    x ∈ insertBy le a l ↔ x = a ∨ x ∈ l := by
  induction l with
  | nil => simp [insertBy]
  | cons b t ih =>
    by_cases h : le a b
    · simp [insertBy, h]
    · simp only [insertBy, if_neg h, List.mem_cons, ih]
      tauto

lemma mem_sortBy {α : Type} {le : α → α → Bool} {x : α} {l : List α} :
    x ∈ sortBy le l ↔ x ∈ l := by
  induction l with
  | nil => simp [sortBy]
  | cons a t ih =>
    simp only [sortBy, mem_insertBy, List.mem_cons, ih]

lemma noOcc_markerB_innerLines (ws : List (List Char × List Char))
    (hwB : ∀ p ∈ ws, ∀ j, occursAt markerB (entryLine p) j = false) :
    ∀ l ∈ innerLines ws, ∀ j, occursAt markerB l j = false := by
  intro l hl
  simp only [innerLines, List.append_assoc, List.mem_append, List.mem_cons,
    List.mem_singleton, List.mem_map, List.not_mem_nil] at hl
  rcases hl with (rfl | rfl | rfl | hF) | ⟨p, hp, rfl⟩ | (rfl | hF)
  · exact occursAt_nil markerB_ne_nil
  · exact noOcc_markerB_in_wtitle
  · exact occursAt_nil markerB_ne_nil
  · exact hF.elim
  · exact hwB p (mem_sortBy.mp hp)
  · exact occursAt_nil markerB_ne_nil
  · exact hF.elim

lemma renderIndex_eq (ws : List (List Char × List Char)) :
    renderIndex ws
      = markerA ++ '\n' :: (joinNL (innerLines ws) ++ '\n' :: (markerB ++ ['\n'])) := by
  rw [renderIndex, indexLines]
  rw [@joinNL_append (markerA :: innerLines ws) [markerB, []] (by simp) (by simp),
    @joinNL_cons markerA (innerLines ws) (by simp [innerLines])]
  simp [List.append_assoc]
  rfl

lemma update_readme_core (ws : List (List Char × List Char)) (P M S : List Char)
    (hA : ∀ j < P.length,
        occursAt markerA (P ++ (markerA ++ (M ++ (markerB ++ S)))) j = false)
    (hB : ∀ j < P.length + markerA.length + M.length,
        occursAt markerB (P ++ (markerA ++ (M ++ (markerB ++ S)))) j = false)
    (hS : ∀ j, occursAt markerB S j = false) :
    update_readme (some (P ++ (markerA ++ (M ++ (markerB ++ S))))) ws
      = (pyRstrip P ++ ['\n']) ++ renderIndex ws ++ pyLstrip S := by
  have hfA : findOcc markerA (P ++ (markerA ++ (M ++ (markerB ++ S)))) = some P.length := by
    apply (findOcc_some_iff markerA_ne_nil).mpr
    refine ⟨?_, hA⟩
    rw [occursAt, List.drop_left]
    exact startsWith_self_append _ _
  have hfB : findOcc markerB (P ++ (markerA ++ (M ++ (markerB ++ S))))
      = some (P.length + markerA.length + M.length) := by
    apply (findOcc_some_iff markerB_ne_nil).mpr
    refine ⟨?_, hB⟩
    have h0 : occursAt markerB (markerB ++ S) 0 = true := startsWith_self_append _ _
    have h1 := occursAt_shift M h0
    have h2 := occursAt_shift markerA h1
    have h3 := occursAt_shift P h2
    rw [show P.length + markerA.length + M.length
        = P.length + (markerA.length + (M.length + 0)) by omega]
    exact h3
  have hget0 : (pySplit markerA (P ++ (markerA ++ (M ++ (markerB ++ S))))).getD 0 [] = P := by
    rw [pySplit_step markerA_ne_nil hfA]
    show List.take P.length (P ++ _) = P
    rw [List.take_left]
  have hdropB : List.drop (P.length + markerA.length + M.length + markerB.length)
      (P ++ (markerA ++ (M ++ (markerB ++ S)))) = S := by
    rw [show P.length + markerA.length + M.length + markerB.length
        = P.length + (markerA.length + (M.length + markerB.length)) by omega]
    rw [List.drop_append, List.drop_append, List.drop_append, List.drop_left]
  have hget1 : (pySplit markerB (P ++ (markerA ++ (M ++ (markerB ++ S))))).getD 1 [] = S := by
    rw [pySplit_step markerB_ne_nil hfB, hdropB,
      pySplit_none ((findOcc_none_iff markerB_ne_nil).mpr hS)]
    rfl
  simp only [update_readme]
  rw [show containsSub markerA (P ++ (markerA ++ (M ++ (markerB ++ S)))) = true by
    rw [containsSub, hfA]; rfl]
  rw [show containsSub markerB (P ++ (markerA ++ (M ++ (markerB ++ S)))) = true by
    rw [containsSub, hfB]; rfl]
  simp only [Bool.and_self, if_true]
  rw [hget0, hget1]

lemma update_readme_normal (ws : List (List Char × List Char)) (rp ls : List Char)
    (hwB : ∀ p ∈ ws, ∀ j, occursAt markerB (entryLine p) j = false)
    (hA : ∀ j, occursAt markerA rp j = false)
    (hB : ∀ j, occursAt markerB rp j = false)
    (hS : ∀ j, occursAt markerB ls j = false)
    (hrp : pyRstrip rp = rp) (hls : pyLstrip ls = ls) :
    update_readme (some (rp ++ '\n' :: (renderIndex ws ++ ls))) ws
      = rp ++ '\n' :: (renderIndex ws ++ ls) := by
  have hJno : ∀ j, occursAt markerB (joinNL (innerLines ws)) j = false :=
    noOcc_joinNL markerB_ne_nil markerB_no_newline _ (noOcc_markerB_innerLines ws hwB)
  have hmA1 : (1 : Nat) ≤ markerA.length := by decide
  have hmB1 : (1 : Nat) ≤ markerB.length := by decide
  have hshape : rp ++ '\n' :: (renderIndex ws ++ ls)
      = (rp ++ ['\n']) ++ (markerA ++ (('\n' :: (joinNL (innerLines ws) ++ ['\n']))
          ++ (markerB ++ ('\n' :: ls)))) := by
    rw [renderIndex_eq]
    simp [List.append_assoc]
  have hpeel : ∀ j, occursAt markerB
      ((rp ++ ['\n']) ++ (markerA ++ (('\n' :: (joinNL (innerLines ws) ++ ['\n']))
        ++ (markerB ++ ('\n' :: ls))))) j = true →
      (rp ++ ['\n']).length + markerA.length
        + ('\n' :: (joinNL (innerLines ws) ++ ['\n'])).length ≤ j := by
    intro j hocc
    have hocc1 : occursAt markerB (rp ++ '\n'
        :: (markerA ++ (('\n' :: (joinNL (innerLines ws) ++ ['\n']))
          ++ (markerB ++ ('\n' :: ls))))) j = true := by
      rw [show rp ++ '\n' :: (markerA ++ (('\n' :: (joinNL (innerLines ws) ++ ['\n']))
          ++ (markerB ++ ('\n' :: ls))))
        = (rp ++ ['\n']) ++ (markerA ++ (('\n' :: (joinNL (innerLines ws) ++ ['\n']))
          ++ (markerB ++ ('\n' :: ls)))) by simp]
      exact hocc
    rcases occursAt_peel markerB_ne_nil markerB_no_newline hocc1 with h1 | ⟨hj1, h2⟩
    · rw [hB j] at h1
      exact absurd h1 (by simp)
    · have h2' : occursAt markerB (markerA ++ '\n'
          :: ((joinNL (innerLines ws) ++ ['\n']) ++ (markerB ++ ('\n' :: ls))))
          (j - (rp.length + 1)) = true := by
        rw [show markerA ++ '\n' :: ((joinNL (innerLines ws) ++ ['\n'])
            ++ (markerB ++ ('\n' :: ls)))
          = markerA ++ (('\n' :: (joinNL (innerLines ws) ++ ['\n']))
            ++ (markerB ++ ('\n' :: ls))) by simp]
        exact h2
      rcases occursAt_peel markerB_ne_nil markerB_no_newline h2' with h3 | ⟨hj2, h4⟩
      · rw [noOcc_markerB_in_markerA _] at h3
        exact absurd h3 (by simp)
      · have h4' : occursAt markerB (joinNL (innerLines ws) ++ '\n'
            :: (markerB ++ ('\n' :: ls)))
            (j - (rp.length + 1) - (markerA.length + 1)) = true := by
          rw [show joinNL (innerLines ws) ++ '\n' :: (markerB ++ ('\n' :: ls))
            = (joinNL (innerLines ws) ++ ['\n']) ++ (markerB ++ ('\n' :: ls)) by simp]
          exact h4
        rcases occursAt_peel markerB_ne_nil markerB_no_newline h4' with h5 | ⟨hj3, h6⟩
        · rw [hJno _] at h5
          exact absurd h5 (by simp)
        · simp only [List.length_append, List.length_cons, List.length_nil] at hj3 ⊢
          omega
  have hA' : ∀ j < (rp ++ ['\n']).length, occursAt markerA
      ((rp ++ ['\n']) ++ (markerA ++ (('\n' :: (joinNL (innerLines ws) ++ ['\n']))
        ++ (markerB ++ ('\n' :: ls))))) j = false := by
    intro j hj
    by_cases hocc : occursAt markerA ((rp ++ ['\n']) ++ (markerA
        ++ (('\n' :: (joinNL (innerLines ws) ++ ['\n']))
          ++ (markerB ++ ('\n' :: ls))))) j = true
    · exfalso
      have hocc1 : occursAt markerA (rp ++ '\n' :: (markerA
          ++ (('\n' :: (joinNL (innerLines ws) ++ ['\n']))
            ++ (markerB ++ ('\n' :: ls))))) j = true := by
        rw [show rp ++ '\n' :: (markerA ++ (('\n' :: (joinNL (innerLines ws) ++ ['\n']))
            ++ (markerB ++ ('\n' :: ls))))
          = (rp ++ ['\n']) ++ (markerA ++ (('\n' :: (joinNL (innerLines ws) ++ ['\n']))
            ++ (markerB ++ ('\n' :: ls)))) by simp]
        exact hocc
      rcases occursAt_peel markerA_ne_nil markerA_no_newline hocc1 with h1 | ⟨hj1, h2⟩
      · rw [hA j] at h1
        exact absurd h1 (by simp)
      · simp only [List.length_append, List.length_cons, List.length_nil] at hj
        omega
    · simpa using hocc
  have hB' : ∀ j < (rp ++ ['\n']).length + markerA.length
      + ('\n' :: (joinNL (innerLines ws) ++ ['\n'])).length, occursAt markerB
      ((rp ++ ['\n']) ++ (markerA ++ (('\n' :: (joinNL (innerLines ws) ++ ['\n']))
        ++ (markerB ++ ('\n' :: ls))))) j = false := by
    intro j hj
    by_cases hocc : occursAt markerB ((rp ++ ['\n']) ++ (markerA
        ++ (('\n' :: (joinNL (innerLines ws) ++ ['\n']))
          ++ (markerB ++ ('\n' :: ls))))) j = true
    · exact absurd (hpeel j hocc) (by omega)
    · simpa using hocc
  have hS' : ∀ j, occursAt markerB ('\n' :: ls) j = false := by
    intro j
    cases j with
    | zero =>
      rw [occursAt_zero]
      exact startsWith_markerB_newline ls
    | succ j =>
      rw [occursAt_cons]
      exact hS j
  rw [hshape, update_readme_core ws (rp ++ ['\n'])
    ('\n' :: (joinNL (innerLines ws) ++ ['\n'])) ('\n' :: ls) hA' hB' hS',
    pyRstrip_concat_newline, hrp, pyLstrip_cons_newline, hls, renderIndex_eq]
  simp [List.append_assoc]

lemma lexLe_total : ∀ (a b : List Char), lexLe a b = true ∨ lexLe b a = true := by
  intro a
  induction a with
  | nil => intro b; left; rfl
  | cons x xs ih =>
    intro b
    cases b with
    | nil => right; rfl
    | cons y ys =>
      by_cases hxy : x.toNat = y.toNat
      · rcases ih ys with h | h
        · left
          simp [lexLe, hxy, h]
        · right
          simp [lexLe, hxy.symm, h]
      · rcases Nat.lt_or_ge x.toNat y.toNat with hlt | hge
        · left
          simp [lexLe, hxy, hlt]
        · right
          rw [lexLe]
          rw [if_neg (fun he => hxy he.symm)]
          simp
          omega

lemma lexLe_trans : ∀ (a b c : List Char),
    lexLe a b = true → lexLe b c = true → lexLe a c = true := by
  intro a
  induction a with
  | nil => intro b c _ _; rfl
  | cons x xs ih =>
    intro b c h1 h2
    cases b with
    | nil => exact absurd h1 (by simp [lexLe])
    | cons y ys =>
      cases c with
      | nil => exact absurd h2 (by simp [lexLe])
      | cons z zs =>
        rw [lexLe] at h1 h2 ⊢
        by_cases hxy : x.toNat = y.toNat
        · rw [if_pos hxy] at h1
          by_cases hyz : y.toNat = z.toNat
          · rw [if_pos hyz] at h2
            rw [if_pos (hxy.trans hyz)]
            exact ih ys zs h1 h2
          · rw [if_neg hyz] at h2
            rw [if_neg (fun he => hyz (hxy ▸ he))]
            simpa [hxy] using h2
        · rw [if_neg hxy] at h1
          simp only [decide_eq_true_eq] at h1
          by_cases hyz : y.toNat = z.toNat
          · rw [if_neg (fun he => hxy (hyz ▸ he))]
            simp only [decide_eq_true_eq]
            omega
          · rw [if_neg hyz] at h2
            simp only [decide_eq_true_eq] at h2
            rw [if_neg (by omega)]
            simp only [decide_eq_true_eq]
            omega

lemma titleLe_total : ∀ (a b : List Char × List Char),
    titleLe a b = true ∨ titleLe b a = true :=
  fun a b => lexLe_total (pyLower a.1) (pyLower b.1)

lemma titleLe_trans : ∀ (a b c : List Char × List Char),
    titleLe a b = true → titleLe b c = true → titleLe a c = true :=
  fun a b c h1 h2 => lexLe_trans (pyLower a.1) (pyLower b.1) (pyLower c.1) h1 h2

lemma insertBy_pairwise {α : Type} {le : α → α → Bool}
    (htot : ∀ a b, le a b = true ∨ le b a = true)
    (htrans : ∀ a b c, le a b = true → le b c = true → le a c = true)
    (a : α) (l : List α) (h : List.Pairwise (fun x y => le x y = true) l) :
    List.Pairwise (fun x y => le x y = true) (insertBy le a l) := by
  induction l with
  | nil => simp [insertBy]
  | cons b t ih =>
    rcases List.pairwise_cons.mp h with ⟨hb, ht⟩
    by_cases hab : le a b = true
    · rw [insertBy, if_pos hab]
      refine List.pairwise_cons.mpr ⟨?_, h⟩
      intro x hx
      rcases List.mem_cons.mp hx with rfl | hx
      · exact hab
      · exact htrans a b x hab (hb x hx)
    · rw [insertBy, if_neg hab]
      refine List.pairwise_cons.mpr ⟨?_, ih ht⟩
      intro x hx
      rcases mem_insertBy.mp hx with rfl | hx
      · rcases htot x b with h1 | h1
        · exact absurd h1 hab
        · exact h1
      · exact hb x hx

lemma sortBy_pairwise {α : Type} {le : α → α → Bool}
    (htot : ∀ a b, le a b = true ∨ le b a = true)
    (htrans : ∀ a b c, le a b = true → le b c = true → le a c = true) :
    ∀ l : List α, List.Pairwise (fun x y => le x y = true) (sortBy le l) := by
  intro l
  induction l with
  | nil => simp [sortBy]
  | cons a t ih => exact insertBy_pairwise htot htrans a (sortBy le t) ih

/-- C4 counterexample: a pre-existing index document whose prefix ends
with a blank line before the begin marker loses that blank line on
regeneration — the content before the marker is not preserved
byte-for-byte (`rstrip` collapses it to a single newline). -/
theorem C4_counterexample :
    (pySplit markerA (sToL "X\n\n<!-- INDEX:BEGIN -->\nold\n<!-- INDEX:END -->\nY")).getD 0 []
        = sToL "X\n\n"
    ∧ (pySplit markerA (update_readme
        (some (sToL "X\n\n<!-- INDEX:BEGIN -->\nold\n<!-- INDEX:END -->\nY"))
        [(sToL "T", sToL "works/t.md")])).getD 0 [] = sToL "X\n"
    ∧ sToL "X\n\n" ≠ sToL "X\n" := by
  exact ⟨by decide, by decide, by decide⟩

/-- C4 amended: for a pre-existing document `P ++ markerA ++ M ++ markerB
++ S` (first marker occurrences as displayed, no end marker inside `S`),
regeneration yields `rstrip(P) ++ "\n" ++ <regenerated section> ++
lstrip(S)`: the content outside the markers is preserved only up to this
whitespace normalisation — and byte-for-byte exactly when `P` already
ends in a single newline after non-whitespace and `S` carries no leading
whitespace. -/
theorem C4_outside_markers :
    ∀ (ws : List (List Char × List Char)) (P M S : List Char),
      (∀ j < P.length,
          occursAt markerA (P ++ (markerA ++ (M ++ (markerB ++ S)))) j = false) →
      (∀ j < P.length + markerA.length + M.length,
          occursAt markerB (P ++ (markerA ++ (M ++ (markerB ++ S)))) j = false) →
      (∀ j < S.length, occursAt markerB S j = false) →
      update_readme (some (P ++ (markerA ++ (M ++ (markerB ++ S))))) ws
          = (pyRstrip P ++ ['\n']) ++ renderIndex ws ++ pyLstrip S
        ∧ (pyRstrip P ++ ['\n'] = P → pyLstrip S = S →
            update_readme (some (P ++ (markerA ++ (M ++ (markerB ++ S))))) ws
              = P ++ renderIndex ws ++ S) := by
  intro ws P M S hA hB hS
  have hcore := update_readme_core ws P M S hA hB (noOcc_of_bounded markerB_ne_nil hS)
  refine ⟨hcore, ?_⟩
  intro hp hs
  rw [hcore, hp, hs]

/-- Witness for C4 at a concrete normalised document: outside content is
reproduced exactly. -/
theorem C4_outside_markers_witness :
    update_readme (some (sToL "Intro\n" ++ (markerA ++ (sToL "\nold\n"
        ++ (markerB ++ sToL "Tail"))))) [(sToL "T", sToL "works/t.md")]
      = sToL "Intro\n" ++ renderIndex [(sToL "T", sToL "works/t.md")] ++ sToL "Tail" :=
  ((C4_outside_markers [(sToL "T", sToL "works/t.md")] (sToL "Intro\n") (sToL "\nold\n")
    (sToL "Tail") (by decide) (by decide) (by decide)).2 (by decide) (by decide))

/-- C9: regenerating the index twice in a row over a marker-carrying
document is idempotent — the second regeneration reproduces the first
byte-for-byte, inside and outside the markers — and the regenerated
listing is sorted case-insensitively by title. -/
theorem C9_index_idempotent :
    ∀ (ws : List (List Char × List Char)) (P M S : List Char),
      (∀ p ∈ ws, ∀ j < (entryLine p).length,
          occursAt markerB (entryLine p) j = false) →
      (∀ j < P.length,
          occursAt markerA (P ++ (markerA ++ (M ++ (markerB ++ S)))) j = false) →
      (∀ j < P.length + markerA.length + M.length,
          occursAt markerB (P ++ (markerA ++ (M ++ (markerB ++ S)))) j = false) →
      (∀ j < S.length, occursAt markerB S j = false) →
      update_readme (some (update_readme
          (some (P ++ (markerA ++ (M ++ (markerB ++ S))))) ws)) ws
        = update_readme (some (P ++ (markerA ++ (M ++ (markerB ++ S))))) ws
      ∧ List.Pairwise (fun a b => titleLe a b = true) (sortWorks ws) := by
  intro ws P M S hwB hA hB hS
  have hS' := noOcc_of_bounded markerB_ne_nil hS
  have hw' : ∀ p ∈ ws, ∀ j, occursAt markerB (entryLine p) j = false :=
    fun p hp => noOcc_of_bounded markerB_ne_nil (hwB p hp)
  have hmA1 : (1 : Nat) ≤ markerA.length := by decide
  have hmB1 : (1 : Nat) ≤ markerB.length := by decide
  have hcore := update_readme_core ws P M S hA hB hS'
  constructor
  · rw [hcore]
    have hsh : (pyRstrip P ++ ['\n']) ++ renderIndex ws ++ pyLstrip S
        = pyRstrip P ++ '\n' :: (renderIndex ws ++ pyLstrip S) := by
      simp [List.append_assoc]
    rw [hsh]
    apply update_readme_normal ws (pyRstrip P) (pyLstrip S) hw'
    · intro j
      by_cases h : occursAt markerA (pyRstrip P) j = true
      · exfalso
        obtain ⟨t, ht⟩ := pyRstrip_decompose P
        have h1 : occursAt markerA P j = true := by
          rw [ht]
          exact occursAt_append_left markerA_ne_nil h
        have hfit := occursAt_fit markerA_ne_nil h
        have hlen : (pyRstrip P).length ≤ P.length := by
          conv_rhs => rw [ht]
          simp
        have hj : j < P.length := by omega
        have h2 : occursAt markerA (P ++ (markerA ++ (M ++ (markerB ++ S)))) j = true :=
          occursAt_append_left markerA_ne_nil h1
        rw [hA j hj] at h2
        exact absurd h2 (by simp)
      · simpa using h
    · intro j
      by_cases h : occursAt markerB (pyRstrip P) j = true
      · exfalso
        obtain ⟨t, ht⟩ := pyRstrip_decompose P
        have h1 : occursAt markerB P j = true := by
          rw [ht]
          exact occursAt_append_left markerB_ne_nil h
        have hfit := occursAt_fit markerB_ne_nil h
        have hlen : (pyRstrip P).length ≤ P.length := by
          conv_rhs => rw [ht]
          simp
        have hj : j < P.length + markerA.length + M.length := by omega
        have h2 : occursAt markerB (P ++ (markerA ++ (M ++ (markerB ++ S)))) j = true :=
          occursAt_append_left markerB_ne_nil h1
        rw [hB j hj] at h2
        exact absurd h2 (by simp)
      · simpa using h
    · intro j
      by_cases h : occursAt markerB (pyLstrip S) j = true
      · exfalso
        obtain ⟨k, hk⟩ := pyLstrip_decompose S
        rw [hk] at h
        have h1 := occursAt_shift (S.take k) h
        rw [List.take_append_drop] at h1
        rw [hS' ((S.take k).length + j)] at h1
        exact absurd h1 (by simp)
      · simpa using h
    · exact pyRstrip_idem P
    · exact pyLstrip_idem S
  · exact sortBy_pairwise titleLe_total titleLe_trans ws

/-- Witness for C9 at a concrete marker document and two titles whose
case-insensitive order differs from their code-point order. -/
theorem C9_index_idempotent_witness :
    update_readme (some (update_readme
        (some (sToL "Intro\n" ++ (markerA ++ (sToL "\nold\n"
          ++ (markerB ++ sToL "\nTail")))))
        [(sToL "B", sToL "works/b.md"), (sToL "a", sToL "works/a.md")]))
      [(sToL "B", sToL "works/b.md"), (sToL "a", sToL "works/a.md")]
      = update_readme
        (some (sToL "Intro\n" ++ (markerA ++ (sToL "\nold\n"
          ++ (markerB ++ sToL "\nTail")))))
        [(sToL "B", sToL "works/b.md"), (sToL "a", sToL "works/a.md")]
    ∧ List.Pairwise (fun a b => titleLe a b = true)
        (sortWorks [(sToL "B", sToL "works/b.md"), (sToL "a", sToL "works/a.md")]) :=
  C9_index_idempotent [(sToL "B", sToL "works/b.md"), (sToL "a", sToL "works/a.md")]
    (sToL "Intro\n") (sToL "\nold\n") (sToL "\nTail")
    (by decide) (by decide) (by decide) (by decide)
